import Mathlib

/-! Send-only folder: metadata reconciliation (`pull`) and force-override (`override`).

Shallow embedding of `lib/model/folder_sendonly.go`.

* The two operations `sendOnlyFolder.pull` and `sendOnlyFolder.override` are
  translated statement by statement from the source.
* The collaborators whose code lives outside that file (version vectors, the file
  record and its flag helpers, the batch accumulator) are modelled from the
  specification; each such definition says so in its doc comment.
* Collaborators that are pure interfaces (ignore matcher, equivalence test,
  serialized size, snapshot lookup, need iteration, batch thresholds) are fields of
  the `Folder` and `Snapshot` structures, so every theorem holds for all of them.
* The `World` records the calls the operations make on their surroundings, kind by
  kind and, in `trace`, all together in the order they are made, so that statements
  about what happens before or after what can be made.
* The running size `batchSizeBytes` of `override` is a Go `int`: sums wrap around at
  64 bits (`wrapInt`).
-/

namespace SendOnly

/-! ## Version vectors -/

/-- Short device identifier (`protocol.ShortID`). -/
abbrev ShortID := Nat

/-- Modelled from the spec: one entry of a version vector, a device identity with its
counter (section 3, "mapping from Device Identity to monotonically increasing
counter"). The declaration of the type is not part of `folder_sendonly.go`. -/
structure Counter where
  ID : ShortID
  Value : Nat
deriving DecidableEq, Repr

/-- Value stored for device `d` in a counter list; an absent device counts as `0`. -/
def counterOf : List Counter → ShortID → Nat
  | [], _ => 0
  | c :: rest, d => if c.ID = d then c.Value else counterOf rest d

/-- Whether device `d` has an entry in a counter list. -/
def hasKey : List Counter → ShortID → Bool
  | [], _ => false
  | c :: rest, d => decide (c.ID = d) || hasKey rest d

/-- Modelled from the spec: the version vector, a finite mapping from device
identities to counters (section 3). The type is declared outside
`folder_sendonly.go`. -/
structure VersionVector where
  Counters : List Counter
deriving DecidableEq, Repr

namespace VersionVector

/-- The counter of device `d` (zero when the device has no entry). -/
def Counter (v : VersionVector) (d : ShortID) : Nat :=
  counterOf v.Counters d

/-- Modelled from the spec: `Merge(a, b)` "yields the component-wise maximum over the
union of keys" (sections 3 and 4.1). `Merge` is defined outside
`folder_sendonly.go`. -/
def Merge (a b : VersionVector) : VersionVector :=
  { Counters :=
      a.Counters.map (fun c => { ID := c.ID, Value := max c.Value (counterOf b.Counters c.ID) })
        ++ b.Counters.filter (fun c => !hasKey a.Counters c.ID) }

/-- Modelled from the spec: `Update(d)` "increments the counter for device `d` by one
(creating the entry if absent)" (sections 3 and 4.1). `Update` is defined outside
`folder_sendonly.go`. -/
def Update (v : VersionVector) (d : ShortID) : VersionVector :=
  if hasKey v.Counters d then
    { Counters := v.Counters.map (fun c => if c.ID = d then { ID := c.ID, Value := c.Value + 1 } else c) }
  else
    { Counters := v.Counters ++ [{ ID := d, Value := 1 }] }

/-- Modelled from the spec: "Two vectors are equal iff equal on every key"
(section 3); it suffices to compare on the keys that occur in either vector. -/
def Equal (a b : VersionVector) : Bool :=
  (a.Counters ++ b.Counters).all (fun c => a.Counter c.ID == b.Counter c.ID)

/-- Modelled from the spec: "one dominates another iff its merge with the other
equals itself" (section 3). -/
def Dominates (a b : VersionVector) : Bool :=
  (a.Merge b).Equal a

end VersionVector

/-! ## File records -/

/-- Modelled from the spec: the file record of section 3, "name, version vector,
sequence number, size, modification time, permission bits, flag set" with the flags
deleted, invalid, ignored and must-rescan. `protocol.FileInfo` is declared outside
`folder_sendonly.go`; the fields `Name`, `Version` and `Sequence` are the ones the
source reads and writes directly. -/
structure FileInfo where
  Name : String
  Version : VersionVector
  Sequence : Int
  Size : Int
  ModifiedS : Int
  Permissions : Nat
  Deleted : Bool
  RawInvalid : Bool
  Ignored : Bool
  MustRescan : Bool
deriving DecidableEq, Repr

namespace FileInfo

/-- Modelled from the spec: a record "carries the invalid flag" when it is "in a
locally-bad state (ignored, unsupported, requiring rescan)" (section 4.5; the source
comment at the call site reads "files that are in a bad state (ignored, unsupported,
must rescan, ...)"). `IsInvalid` is defined outside `folder_sendonly.go`. -/
def IsInvalid (f : FileInfo) : Bool :=
  f.RawInvalid || f.Ignored || f.MustRescan

/-- Modelled from the spec: the `deleted` flag of the record (section 3).
`IsDeleted` is defined outside `folder_sendonly.go`. -/
def IsDeleted (f : FileInfo) : Bool :=
  f.Deleted

/-- Modelled from the spec: "mark it with the `ignored` flag" (section 4.4, step 2a).
`SetIgnored` is defined outside `folder_sendonly.go`. -/
def SetIgnored (f : FileInfo) : FileInfo :=
  { f with Ignored := true }

/-- Modelled from the spec: "mark `need` as locally deleted, stamped with this
device's identity" (section 4.5, step 4), where stamping a record is what `Update`
does: it is "used to stamp a record as touched by this device" (section 4.1).
`SetDeleted` is defined outside `folder_sendonly.go`. -/
def SetDeleted (f : FileInfo) (by_ : ShortID) : FileInfo :=
  { f with Deleted := true, Version := f.Version.Update by_ }

end FileInfo

/-! ## Collaborators of the folder -/

/-- Error values (Go `error`). -/
abbrev Error := String

/-- Event kinds the folder logs; `events.Failure` is the only one the source uses. -/
inductive EventType where
  | Failure
deriving DecidableEq, Repr

/-- One call of `evLogger.Log(kind, message)`. -/
structure Event where
  kind : EventType
  message : String
deriving DecidableEq, Repr

/-- Folder lifecycle states used by the source (`FolderIdle`, `FolderScanning`). -/
inductive FolderState where
  | FolderIdle
  | FolderScanning
deriving DecidableEq, Repr

/-- What the folder host supplies to `sendOnlyFolder` (the embedded `folder`): the
short ID of the local device, the equivalence-test configuration, the ignore matcher,
and the package-level helpers and constants that are declared outside
`folder_sendonly.go` and enter here as parameters. -/
structure Folder where
  /-- Short ID of the local device: `f.shortID`. -/
  shortID : ShortID
  /-- Modification-time tolerance: `f.modTimeWindow`. -/
  modTimeWindow : Nat
  /-- Whether permission bits are ignored: `f.IgnorePerms`. -/
  IgnorePerms : Bool
  /-- The ignore matcher: `f.ignores.ShouldIgnore(name)`. -/
  ShouldIgnore : String → Bool
  /-- The equivalence test
  `file.IsEquivalentOptional(other, modTimeWindow, ignorePerms, ignoreBlocks, ignoreFlags)`. -/
  IsEquivalentOptional : FileInfo → FileInfo → Nat → Bool → Bool → Nat → Bool
  /-- Serialized size estimate: `file.ProtoSize()`. -/
  ProtoSize : FileInfo → Int
  /-- Count threshold of a batch: `maxBatchSizeFiles`. -/
  maxBatchSizeFiles : Nat
  /-- Byte threshold of a batch: `maxBatchSizeBytes`. -/
  maxBatchSizeBytes : Int

/-- A database snapshot as the two operations use it, for the local device only:
`Get(protocol.LocalDeviceID, name)` returning the record and the found flag, and the
records `WithNeed(protocol.LocalDeviceID, fn)` visits, in iteration order. -/
structure Snapshot where
  Get : String → FileInfo × Bool
  need : List FileInfo

/-- The iteration `snap.WithNeed(protocol.LocalDeviceID, fn)`: the callback visits the
needed records in order, threading its captured variables `s`, and the iteration stops
as soon as the callback returns `false`. -/
def iterate {σ : Type} (fn : σ → FileInfo → σ × Bool) : List FileInfo → σ → σ
  | [], s => s
  | x :: xs, s =>
    let r := fn s x
    if r.2 then iterate fn xs r.1 else r.1

/-- See `iterate`. -/
def Snapshot.WithNeed {σ : Type} (snap : Snapshot) (fn : σ → FileInfo → σ × Bool) (s : σ) : σ :=
  iterate fn snap.need s

/-- One observable call made by the folder: a state change, a snapshot acquisition, a
commit on either commit path, a logged event, or a snapshot release. -/
inductive Action where
  | setState (s : FolderState)
  | dbSnapshot
  | updateLocalsFromPulling (files : List FileInfo)
  | updateLocalsFromScanning (files : List FileInfo)
  | Log (kind : EventType) (message : String)
  | Release
deriving DecidableEq, Repr

/-- Everything outside the function bodies that the two operations act on: the folder
state, the observable calls of each kind in the order they were made, and all
observable calls together, in one sequence, in the order they were made. -/
structure World where
  /-- Current folder state (last `setState`). -/
  state : FolderState
  /-- Every `setState` call, oldest first. -/
  transitions : List FolderState
  /-- Every batch passed to `updateLocalsFromPulling`, oldest first. -/
  pulling : List (List FileInfo)
  /-- Every batch passed to `updateLocalsFromScanning`, oldest first. -/
  scanning : List (List FileInfo)
  /-- Every event passed to `evLogger.Log`, oldest first. -/
  events : List Event
  /-- Number of `snap.Release()` calls. -/
  released : Nat
  /-- Every observable call of any kind, oldest first. -/
  trace : List Action
deriving DecidableEq, Repr

namespace World

/-- A world in which nothing has happened yet and the folder is idle. -/
def init : World :=
  { state := .FolderIdle, transitions := [], pulling := [], scanning := [], events := [],
    released := 0, trace := [] }

/-- The call `f.setState(s)`. -/
def setState (w : World) (s : FolderState) : World :=
  { w with state := s, transitions := w.transitions ++ [s],
           trace := w.trace ++ [Action.setState s] }

/-- The call `f.dbSnapshot()`; its outcome is an argument of the operation. -/
def dbSnapshot (w : World) : World :=
  { w with trace := w.trace ++ [Action.dbSnapshot] }

/-- The call `f.updateLocalsFromPulling(files)`: the commit path of `pull`. -/
def updateLocalsFromPulling (w : World) (files : List FileInfo) : World :=
  { w with pulling := w.pulling ++ [files],
           trace := w.trace ++ [Action.updateLocalsFromPulling files] }

/-- The call `f.updateLocalsFromScanning(files)`: the commit path of `override`. -/
def updateLocalsFromScanning (w : World) (files : List FileInfo) : World :=
  { w with scanning := w.scanning ++ [files],
           trace := w.trace ++ [Action.updateLocalsFromScanning files] }

/-- The call `f.evLogger.Log(kind, message)`. -/
def Log (w : World) (kind : EventType) (message : String) : World :=
  { w with events := w.events ++ [{ kind := kind, message := message }],
           trace := w.trace ++ [Action.Log kind message] }

/-- The call `snap.Release()`. -/
def Release (w : World) : World :=
  { w with released := w.released + 1, trace := w.trace ++ [Action.Release] }

end World

/-! ## Batch accumulator -/

/-- Modelled from the spec: the state of the batch accumulator of section 4.3, the
"ordered sequence of pending File Records" and the "running byte-size total". The
type `fileInfoBatch` is declared outside `folder_sendonly.go`; its commit callback is
passed to `flush` explicitly. -/
structure fileInfoBatch where
  infos : List FileInfo
  size : Int
deriving DecidableEq, Repr

/-- Modelled from the spec: a fresh accumulator holds nothing (section 4.3).
`newFileInfoBatch` is defined outside `folder_sendonly.go`. -/
def newFileInfoBatch : fileInfoBatch :=
  { infos := [], size := 0 }

namespace fileInfoBatch

/-- Modelled from the spec: `Append(record)` "adds to the pending sequence, updates
the running size using the record's serialized size estimate" (section 4.3).
`append` is defined outside `folder_sendonly.go`. -/
def append (f : Folder) (b : fileInfoBatch) (file : FileInfo) : fileInfoBatch :=
  { infos := b.infos ++ [file], size := b.size + f.ProtoSize file }

/-- Modelled from the spec: `Flush()` "unconditionally invokes the configured commit
callback with the pending sequence (if non-empty), then clears state" (section 4.3).
`flush` is defined outside `folder_sendonly.go`. -/
def flush (flushFn : World → List FileInfo → World) (b : fileInfoBatch) (w : World) :
    fileInfoBatch × World :=
  (newFileInfoBatch, if b.infos.isEmpty then w else flushFn w b.infos)

/-- Modelled from the spec: `FlushIfFull()`, "if count or size threshold is exceeded,
flush then reset", so that "a batch never exceeds thresholds after an append"
(section 4.3): the batch is flushed once a threshold has been reached.
`flushIfFull` is defined outside `folder_sendonly.go`. -/
def flushIfFull (f : Folder) (flushFn : World → List FileInfo → World) (b : fileInfoBatch)
    (w : World) : fileInfoBatch × World :=
  if decide (b.infos.length ≥ f.maxBatchSizeFiles) || decide (b.size ≥ f.maxBatchSizeBytes) then
    b.flush flushFn w
  else
    (b, w)

end fileInfoBatch

/-! ## `sendOnlyFolder.PullErrors` -/

/-- The method `PullErrors`: `return nil`, an empty slice of file errors. -/
def PullErrors (_w : World) : List (String × Error) :=
  []

/-! ## `sendOnlyFolder.pull` -/

/-- The message of the anomaly event logged by `pull`. -/
def deletedNeededMessage : String :=
  "got deleted file that doesn't exist locally as needed when pulling on send-only"

/-- The commit callback `pull` hands to `newFileInfoBatch`:
`f.updateLocalsFromPulling(files); return nil`. -/
def pullFlushFn (w : World) (files : List FileInfo) : World :=
  w.updateLocalsFromPulling files

/-- The callback `pull` passes to `snap.WithNeed` (source lines 50 to 82). It captures
the batch and acts on the event log and the commit path, which is the state threaded
here; the returned boolean is the callback's `return true`. -/
def pullVisit (f : Folder) (snap : Snapshot) (s : fileInfoBatch × World) (intf : FileInfo) :
    (fileInfoBatch × World) × Bool :=
  -- batch.flushIfFull()
  let s := s.1.flushIfFull f pullFlushFn s.2
  -- file := intf.(protocol.FileInfo)
  let file := intf
  if f.ShouldIgnore intf.Name then
    -- file.SetIgnored(); batch.append(file); return true
    let file := file.SetIgnored
    ((s.1.append f file, s.2), true)
  else
    -- curFile, ok := snap.Get(protocol.LocalDeviceID, intf.FileName())
    let curFile := (snap.Get intf.Name).1
    let ok := (snap.Get intf.Name).2
    if !ok then
      if intf.IsInvalid then
        -- Global invalid file just exists for need accounting
        ((s.1.append f file, s.2), true)
      else if intf.IsDeleted then
        ((s.1, s.2.Log .Failure deletedNeededMessage), true)
      else
        (s, true)
    else if !(f.IsEquivalentOptional file curFile f.modTimeWindow f.IgnorePerms false 0) then
      (s, true)
    else
      -- batch.append(file); return true
      ((s.1.append f file, s.2), true)

/-- The method `pull`: acquire a snapshot (`db` is the outcome of `f.dbSnapshot()`),
visit every needed record, flush, release the snapshot, and report `(true, nil)`; a
failed acquisition returns `(false, err)` at once. -/
def pull (f : Folder) (db : Except Error Snapshot) (w : World) : (Bool × Option Error) × World :=
  let batch := newFileInfoBatch
  -- snap, err := f.dbSnapshot()
  let w := w.dbSnapshot
  match db with
  | .error err => ((false, some err), w)
  | .ok snap =>
    let s := snap.WithNeed (pullVisit f snap) (batch, w)
    -- batch.flush()
    let s := s.1.flush pullFlushFn s.2
    -- deferred: snap.Release()
    ((true, none), s.2.Release)

/-! ## `sendOnlyFolder.override` -/

/-- Largest value of a Go `int` (64 bits). -/
def maxInt : Int := 9223372036854775807

/-- Smallest value of a Go `int` (64 bits). -/
def minInt : Int := -9223372036854775808

/-- Go `int` arithmetic wraps around: the value of a sum as a 64-bit two's complement
integer. -/
def wrapInt (x : Int) : Int :=
  (x + 9223372036854775808) % 18446744073709551616 - 9223372036854775808

/-- The variables the callback of `override` captures: the manually managed batch, its
running size (a Go `int`), and the world the commit path acts on. -/
structure OverrideAcc where
  batch : List FileInfo
  batchSizeBytes : Int
  world : World
deriving DecidableEq, Repr

/-- The inline flush at the head of the callback of `override` (source lines 108 to
112): when the batch holds exactly `maxBatchSizeFiles` records or its size is above
`maxBatchSizeBytes`, commit it and start an empty one. -/
def overrideFlushIfFull (f : Folder) (acc : OverrideAcc) : OverrideAcc :=
  if acc.batch.length == f.maxBatchSizeFiles || decide (acc.batchSizeBytes > f.maxBatchSizeBytes) then
    { batch := [], batchSizeBytes := 0, world := acc.world.updateLocalsFromScanning acc.batch }
  else
    acc

/-- The callback `override` passes to `snap.WithNeed` (source lines 106 to 132); the
returned boolean is the callback's `return true`. -/
def overrideVisit (f : Folder) (snap : Snapshot) (acc : OverrideAcc) (fi : FileInfo) :
    OverrideAcc × Bool :=
  -- need := fi.(protocol.FileInfo)
  let need := fi
  let acc := overrideFlushIfFull f acc
  -- have, ok := snap.Get(protocol.LocalDeviceID, need.Name)
  let haveFile := (snap.Get need.Name).1
  let ok := (snap.Get need.Name).2
  if ok && haveFile.IsInvalid then
    -- Don't override files that are in a bad state
    (acc, true)
  else
    let need :=
      if !ok || haveFile.Name != need.Name then
        -- We are missing the file
        need.SetDeleted f.shortID
      else
        -- We have the file, replace with our version
        { haveFile with Version := (haveFile.Version.Merge need.Version).Update f.shortID }
    let need := { need with Sequence := 0 }
    -- batch = append(batch, need); batchSizeBytes += need.ProtoSize()
    ({ acc with batch := acc.batch ++ [need],
                batchSizeBytes := wrapInt (acc.batchSizeBytes + f.ProtoSize need) }, true)

/-- The method `override`: set the folder scanning, acquire a snapshot (`db` is the
outcome of `f.dbSnapshot()`), visit every needed record, commit what is left in the
batch, and return `nil`; a failed acquisition returns the error. The deferred calls
run on every exit, last registered first: `snap.Release()` (only once the snapshot
was acquired), then `f.setState(FolderIdle)`. -/
def override (f : Folder) (db : Except Error Snapshot) (w : World) : Option Error × World :=
  let w := w.setState .FolderScanning
  -- snap, err := f.dbSnapshot()
  let w := w.dbSnapshot
  match db with
  | .error err => (some err, w.setState .FolderIdle)
  | .ok snap =>
    let acc := snap.WithNeed (overrideVisit f snap)
      { batch := [], batchSizeBytes := 0, world := w }
    let w := if acc.batch.length > 0 then acc.world.updateLocalsFromScanning acc.batch
             else acc.world
    (none, (w.Release).setState .FolderIdle)

/-! ## Observations on single callback runs -/

/-- The accumulator `override` starts from: empty batch, zero bytes. -/
def overrideStart (w : World) : OverrideAcc :=
  { batch := [], batchSizeBytes := 0, world := w }

/-- The records one run of the callback of `override` appends for `need`, read off
a run that starts from the empty batch. -/
def overrideRecords (f : Folder) (snap : Snapshot) (need : FileInfo) : List FileInfo :=
  (overrideVisit f snap (overrideStart World.init) need).1.batch

/-- The records one run of the callback of `pull` appends for `intf`, read off a run
that starts from the empty batch. -/
def pullAppended (f : Folder) (snap : Snapshot) (intf : FileInfo) : List FileInfo :=
  (pullVisit f snap (newFileInfoBatch, World.init) intf).1.1.infos

/-- The events one run of the callback of `pull` logs for `intf`, read off a run that
starts from a world without events. -/
def pullLogged (f : Folder) (snap : Snapshot) (intf : FileInfo) : List Event :=
  (pullVisit f snap (newFileInfoBatch, World.init) intf).1.2.events

/-- All records `override` has dealt with so far: the committed batches, in commit
order, followed by the pending batch. -/
def OverrideAcc.total (acc : OverrideAcc) : List FileInfo :=
  acc.world.scanning.flatten ++ acc.batch

/-- All records `pull` has dealt with so far: the committed batches, in commit order,
followed by the pending records. -/
def pullTotal (s : fileInfoBatch × World) : List FileInfo :=
  s.2.pulling.flatten ++ s.1.infos

/-- Invariant of the iteration of `override` started in world `w`: the batches
committed so far extend the commit log of `w`, and every record in them, like every
record still pending, has a zero sequence. -/
def SequenceReset (w : World) (acc : OverrideAcc) : Prop :=
  ∃ bs : List (List FileInfo), acc.world.scanning = w.scanning ++ bs ∧
    (∀ b ∈ bs, ∀ r ∈ b, r.Sequence = 0) ∧ ∀ r ∈ acc.batch, r.Sequence = 0

/-! ## Kinds of observable calls -/

/-- Whether an observable call is one the callback and the flushes of `pull` make: a
commit on the commit path of `pull`, or a logged event. -/
def Action.isPullStep : Action → Bool
  | Action.updateLocalsFromPulling _ => true
  | Action.Log _ _ => true
  | _ => false

/-- Whether an observable call is a folder state change. -/
def Action.isSetState : Action → Bool
  | Action.setState _ => true
  | _ => false

/-! ## Sequences of operations -/

/-- One call of an operation of the folder, with the outcome of its snapshot
acquisition. -/
inductive Call where
  | pull (db : Except Error Snapshot)
  | override (db : Except Error Snapshot)

/-- The world after a sequence of `pull` and `override` calls, made one after the
other. -/
def runCalls (f : Folder) : List Call → World → World
  | [], w => w
  | Call.pull db :: rest, w => runCalls f rest (pull f db w).2
  | Call.override db :: rest, w => runCalls f rest (override f db w).2

/-! ## Force-override in the words of the specification -/

/-- The result of force-override for one needed record as section 4.5, step 4 of the
specification words it: look up the local record for the same name; skip when it
exists and carries the invalid flag; when it is absent or its name mismatches, `need`
marked as locally deleted and stamped with this device; else the local record's
fields with the version vector `Merge(have.version, need.version)` then
`Update(local device)`; in both cases with the sequence reset to zero. It is stated
apart from the source, to be compared with what `override` commits. -/
def specOverrideResult (f : Folder) (snap : Snapshot) (need : FileInfo) : Option FileInfo :=
  match snap.Get need.Name with
  | (_, false) => some { need.SetDeleted f.shortID with Sequence := 0 }
  | (local_, true) =>
    if local_.IsInvalid then none
    else if local_.Name ≠ need.Name then some { need.SetDeleted f.shortID with Sequence := 0 }
    else some { local_ with
                  Version := (local_.Version.Merge need.Version).Update f.shortID,
                  Sequence := 0 }

/-- Whether `override` skips the needed record: its local record exists and is
invalid. -/
def locallyInvalid (snap : Snapshot) (need : FileInfo) : Bool :=
  (snap.Get need.Name).2 && (snap.Get need.Name).1.IsInvalid

/-! ## Bounds on the batches of `override` -/

/-- Cumulative serialized size of a list of records. -/
def protoSizes (f : Folder) (b : List FileInfo) : Int :=
  (b.map f.ProtoSize).sum

/-- A committed batch within the thresholds: not empty, at most `maxBatchSizeFiles`
records, and at most `maxBatchSizeBytes` bytes before its last record. -/
def BatchWithin (f : Folder) (b : List FileInfo) : Prop :=
  b ≠ [] ∧ b.length ≤ f.maxBatchSizeFiles ∧ protoSizes f b.dropLast ≤ f.maxBatchSizeBytes

/-- Invariant of the iteration of `override` started in world `w`: the batches
committed so far extend the commit log of `w` and are not empty, and an empty pending
batch has a running size of zero. -/
def NonEmptyInv (w : World) (acc : OverrideAcc) : Prop :=
  (∃ bs : List (List FileInfo), acc.world.scanning = w.scanning ++ bs ∧ ∀ b ∈ bs, b ≠ []) ∧
  (acc.batch = [] → acc.batchSizeBytes = 0)

/-- Invariant of the iteration of `override` started in world `w`, for running sizes
that do not overflow: the batches committed so far extend the commit log of `w` and
are within the thresholds, the pending batch has at most `maxBatchSizeFiles` records
and at most `maxBatchSizeBytes` bytes before its last record, and `batchSizeBytes` is
its cumulative size. -/
def BatchInv (f : Folder) (w : World) (acc : OverrideAcc) : Prop :=
  (∃ bs : List (List FileInfo), acc.world.scanning = w.scanning ++ bs ∧
    ∀ b ∈ bs, BatchWithin f b) ∧
  acc.batch.length ≤ f.maxBatchSizeFiles ∧
  acc.batchSizeBytes = protoSizes f acc.batch ∧
  protoSizes f acc.batch.dropLast ≤ f.maxBatchSizeBytes

/-! ## Concrete scenarios -/

/-- A folder host of the local device `D1` (short ID `1`) whose matcher ignores
exactly `"ignored.txt"`, whose equivalence test compares size and permissions and
accepts modification times within the window, and whose size estimate is the file
size. -/
def exFolder : Folder where
  shortID := 1
  modTimeWindow := 2
  IgnorePerms := false
  ShouldIgnore := fun name => name == "ignored.txt"
  IsEquivalentOptional := fun a b window ignorePerms _ _ =>
    a.Size == b.Size && (ignorePerms || a.Permissions == b.Permissions)
      && decide ((a.ModifiedS - b.ModifiedS).natAbs ≤ window)
  ProtoSize := fun file => file.Size
  maxBatchSizeFiles := 1000
  maxBatchSizeBytes := 10000

/-- A plain record with the given name, version vector and modification time. -/
def exFile (name : String) (version : List Counter) (modified : Int) : FileInfo where
  Name := name
  Version := { Counters := version }
  Sequence := 7
  Size := 10
  ModifiedS := modified
  Permissions := 420
  Deleted := false
  RawInvalid := false
  Ignored := false
  MustRescan := false

/-- The local record of the override scenario of section 8: version `{D1:2}`. -/
def exHave : FileInfo :=
  exFile "b.txt" [{ ID := 1, Value := 2 }] 100

/-- The needed record of the override scenario of section 8: version `{D1:1, D2:3}`;
its size, time and sequence differ from the local record's. -/
def exNeed : FileInfo :=
  { exFile "b.txt" [{ ID := 1, Value := 1 }, { ID := 2, Value := 3 }] 101 with
    Size := 99, Sequence := 41 }

/-- A local record in a bad state. -/
def exBad : FileInfo :=
  { exFile "bad.txt" [{ ID := 1, Value := 5 }] 100 with MustRescan := true }

/-- A needed record for the name of the bad local record. -/
def exNeedBad : FileInfo :=
  exFile "bad.txt" [{ ID := 2, Value := 9 }] 100

/-- A needed record the local device has nothing for, flagged deleted. -/
def exNeedDeleted : FileInfo :=
  { exFile "a.txt" [{ ID := 2, Value := 1 }] 100 with Deleted := true }

/-- A needed record the local device has nothing for, flagged invalid. -/
def exNeedInvalid : FileInfo :=
  { exFile "c.txt" [{ ID := 2, Value := 1 }] 100 with RawInvalid := true }

/-- A needed record the local device has nothing for, flagged deleted and invalid. -/
def exNeedDeletedInvalid : FileInfo :=
  { exFile "a.txt" [{ ID := 2, Value := 1 }] 100 with Deleted := true, RawInvalid := true }

/-- A needed record the local device has nothing for, with no flag set. -/
def exNeedPlain : FileInfo :=
  exFile "d.txt" [{ ID := 2, Value := 1 }] 100

/-- A needed record whose name the matcher ignores. -/
def exNeedIgnored : FileInfo :=
  exFile "ignored.txt" [{ ID := 2, Value := 1 }] 100

/-- The needed record of the equivalence scenario of section 8: same size and
permissions as the local `"b.txt"`, modification time one second later, another
version vector and sequence. -/
def exNeedSame : FileInfo :=
  { exFile "b.txt" [{ ID := 2, Value := 3 }] 101 with Sequence := 41 }

/-- A snapshot in which the local device has `"b.txt"` and, in a bad state,
`"bad.txt"`, and nothing else. -/
def exSnapshot : Snapshot where
  Get := fun name =>
    if name == "b.txt" then (exHave, true)
    else if name == "bad.txt" then (exBad, true)
    else (exFile "" [] 0, false)
  need := [exNeed, exNeedBad, exNeedDeleted, exNeedInvalid, exNeedPlain, exNeedIgnored]

/-- The example folder host with small thresholds: two records or more than fifteen
bytes fill a batch; its size estimate is the file size cut to three decimal digits. -/
def exSmallFolder : Folder :=
  { exFolder with
    ProtoSize := fun file => Int.ofNat (file.Size.toNat % 1000)
    maxBatchSizeFiles := 2
    maxBatchSizeBytes := 15 }

/-- A folder host whose size estimate is the file size as a non-negative Go `int`,
with a byte threshold of fifteen and room for a thousand records. -/
def exWideFolder : Folder :=
  { exFolder with
    ProtoSize := fun file => Int.ofNat (file.Size.toNat % 9223372036854775808)
    maxBatchSizeFiles := 1000
    maxBatchSizeBytes := 15 }

/-- A snapshot in which the local device has nothing, and that needs three records of
sizes one, the largest `int`, and one. -/
def exWideSnapshot : Snapshot where
  Get := fun _ => (exFile "" [] 0, false)
  need := [{ exFile "w1.bin" [{ ID := 2, Value := 1 }] 100 with Size := 1 },
           { exFile "w2.bin" [{ ID := 2, Value := 1 }] 100 with Size := 9223372036854775807 },
           { exFile "w3.bin" [{ ID := 2, Value := 1 }] 100 with Size := 1 }]

/-- The example folder host with a byte threshold that every record exceeds: five
bytes, with records of ten. -/
def exTinyFolder : Folder :=
  { exFolder with maxBatchSizeFiles := 2, maxBatchSizeBytes := 5 }

/-! ### Facts about the version-vector model -/

theorem counterOf_eq_zero_of_not_hasKey (l : List Counter) (d : ShortID)
    (h : hasKey l d = false) : counterOf l d = 0 := by
  induction l with
  | nil => rfl
  | cons c rest ih =>
    simp only [hasKey, Bool.or_eq_false_iff, decide_eq_false_iff_not] at h
    simp [counterOf, h.1, ih h.2]

theorem hasKey_of_mem (l : List Counter) (c : Counter) (h : c ∈ l) : hasKey l c.ID = true := by
  induction l with
  | nil => cases h
  | cons x rest ih =>
    rcases List.mem_cons.mp h with rfl | h'
    · simp [hasKey]
    · simp [hasKey, ih h']

theorem counterOf_append (l₁ l₂ : List Counter) (d : ShortID) :
    counterOf (l₁ ++ l₂) d = if hasKey l₁ d then counterOf l₁ d else counterOf l₂ d := by
  induction l₁ with
  | nil => simp [hasKey]
  | cons c rest ih =>
    by_cases hc : c.ID = d
    · simp [counterOf, hasKey, hc]
    · simp [counterOf, hasKey, hc, ih]

theorem counterOf_map_max (l m : List Counter) (d : ShortID) :
    counterOf (l.map (fun c => { ID := c.ID, Value := max c.Value (counterOf m c.ID) })) d
      = if hasKey l d then max (counterOf l d) (counterOf m d) else 0 := by
  induction l with
  | nil => simp [counterOf, hasKey]
  | cons c rest ih =>
    by_cases hc : c.ID = d
    · simp [counterOf, hasKey, hc]
    · simp [counterOf, hasKey, hc, ih]

theorem hasKey_map_max (l m : List Counter) (d : ShortID) :
    hasKey (l.map (fun c => { ID := c.ID, Value := max c.Value (counterOf m c.ID) })) d
      = hasKey l d := by
  induction l with
  | nil => rfl
  | cons c rest ih => simp [hasKey, ih]

theorem counterOf_filter_of_not_hasKey (l m : List Counter) (d : ShortID)
    (h : hasKey l d = false) :
    counterOf (m.filter (fun c => !hasKey l c.ID)) d = counterOf m d := by
  induction m with
  | nil => rfl
  | cons c rest ih =>
    by_cases hc : c.ID = d
    · have hk : hasKey l c.ID = false := by rw [hc]; exact h
      rw [List.filter_cons_of_pos (by simp [hk])]
      simp [counterOf, hc]
    · cases hk : hasKey l c.ID
      · rw [List.filter_cons_of_pos (by simp [hk])]
        simp [counterOf, hc, ih]
      · rw [List.filter_cons_of_neg (by simp [hk])]
        simp [counterOf, hc, ih]

/-- `Merge` is the component-wise maximum. -/
theorem VersionVector.Counter_Merge (a b : VersionVector) (d : ShortID) :
    (a.Merge b).Counter d = max (a.Counter d) (b.Counter d) := by
  unfold VersionVector.Merge VersionVector.Counter
  simp only [counterOf_append, hasKey_map_max, counterOf_map_max]
  cases h : hasKey a.Counters d
  · simp [counterOf_filter_of_not_hasKey _ _ _ h, counterOf_eq_zero_of_not_hasKey _ _ h]
  · simp

theorem counterOf_map_incr_self (l : List Counter) (d : ShortID) (h : hasKey l d = true) :
    counterOf (l.map (fun c => if c.ID = d then { ID := c.ID, Value := c.Value + 1 } else c)) d
      = counterOf l d + 1 := by
  induction l with
  | nil => simp [hasKey] at h
  | cons c rest ih =>
    by_cases hc : c.ID = d
    · simp [counterOf, hc]
    · have h' : hasKey rest d = true := by simpa [hasKey, hc] using h
      simp [counterOf, hc, ih h']

theorem counterOf_map_incr_other (l : List Counter) (d e : ShortID) (hne : e ≠ d) :
    counterOf (l.map (fun c => if c.ID = d then { ID := c.ID, Value := c.Value + 1 } else c)) e
      = counterOf l e := by
  induction l with
  | nil => rfl
  | cons c rest ih =>
    by_cases hc : c.ID = d
    · have hde : ¬ d = e := fun h => hne h.symm
      simp [counterOf, hc, hde, ih]
    · rw [List.map_cons, if_neg hc]
      by_cases hce : c.ID = e
      · simp [counterOf, hce]
      · simp [counterOf, hce, ih]

/-- `Update d` adds one to the counter of `d`. -/
theorem VersionVector.Counter_Update_self (v : VersionVector) (d : ShortID) :
    (v.Update d).Counter d = v.Counter d + 1 := by
  unfold VersionVector.Update VersionVector.Counter
  cases h : hasKey v.Counters d
  · simp [counterOf_append, h, counterOf, counterOf_eq_zero_of_not_hasKey _ _ h]
  · simp [counterOf_map_incr_self _ _ h]

/-- `Update d` leaves the counter of every other device alone. -/
theorem VersionVector.Counter_Update_other (v : VersionVector) (d e : ShortID) (hne : e ≠ d) :
    (v.Update d).Counter e = v.Counter e := by
  unfold VersionVector.Update VersionVector.Counter
  cases h : hasKey v.Counters d
  · simp only [Bool.false_eq_true, if_false, counterOf_append]
    cases he : hasKey v.Counters e
    · simp [counterOf, counterOf_eq_zero_of_not_hasKey _ _ he, hne.symm]
    · simp
  · simp [counterOf_map_incr_other _ _ _ hne]

theorem exists_mem_of_hasKey (l : List Counter) (d : ShortID) (h : hasKey l d = true) :
    ∃ c ∈ l, c.ID = d := by
  induction l with
  | nil => simp [hasKey] at h
  | cons x rest ih =>
    by_cases hx : x.ID = d
    · exact ⟨x, List.mem_cons_self _ _, hx⟩
    · have h' : hasKey rest d = true := by simpa [hasKey, hx] using h
      obtain ⟨c, hc, hcd⟩ := ih h'
      exact ⟨c, List.mem_cons_of_mem _ hc, hcd⟩

/-- The executable comparison `Equal` decides equality on every key. -/
theorem VersionVector.Equal_iff (a b : VersionVector) :
    a.Equal b = true ↔ ∀ d, a.Counter d = b.Counter d := by
  unfold VersionVector.Equal
  rw [List.all_eq_true]
  constructor
  · intro h d
    cases ha : hasKey a.Counters d
    · cases hb : hasKey b.Counters d
      · simp [VersionVector.Counter, counterOf_eq_zero_of_not_hasKey _ _ ha,
          counterOf_eq_zero_of_not_hasKey _ _ hb]
      · obtain ⟨c, hc, rfl⟩ := exists_mem_of_hasKey _ _ hb
        simpa using h c (List.mem_append_right _ hc)
    · obtain ⟨c, hc, rfl⟩ := exists_mem_of_hasKey _ _ ha
      simpa using h c (List.mem_append_left _ hc)
  · intro h c _
    simpa using h c.ID

/-- Domination is the component-wise order on counters. -/
theorem VersionVector.Dominates_iff (a b : VersionVector) :
    a.Dominates b = true ↔ ∀ d, b.Counter d ≤ a.Counter d := by
  unfold VersionVector.Dominates
  rw [VersionVector.Equal_iff]
  simp only [VersionVector.Counter_Merge]
  constructor
  · intro h d; have := h d; omega
  · intro h d; have := h d; omega


/-! ## The need iteration -/

/-- When the callback never asks to stop, the iteration is a left fold. -/
theorem iterate_eq_foldl {σ : Type} (fn : σ → FileInfo → σ × Bool)
    (hcont : ∀ s x, (fn s x).2 = true) (xs : List FileInfo) (s : σ) :
    iterate fn xs s = xs.foldl (fun s x => (fn s x).1) s := by
  induction xs generalizing s with
  | nil => rfl
  | cons x xs ih => simp [iterate, hcont, ih]

/-- An invariant of the callback is an invariant of the whole iteration. -/
theorem iterate_invariant {σ : Type} (fn : σ → FileInfo → σ × Bool) (P : σ → Prop)
    (hstep : ∀ s x, P s → P (fn s x).1) (xs : List FileInfo) (s : σ) (h : P s) :
    P (iterate fn xs s) := by
  induction xs generalizing s with
  | nil => exact h
  | cons x xs ih =>
    simp only [iterate]
    split
    · exact ih _ (hstep s x h)
    · exact hstep s x h

/-! ## The callback of `override` -/

/-- The inline flush leaves every part of the world other than the commit log alone. -/
theorem overrideFlushIfFull_world (f : Folder) (acc : OverrideAcc) :
    (overrideFlushIfFull f acc).world.state = acc.world.state ∧
    (overrideFlushIfFull f acc).world.transitions = acc.world.transitions ∧
    (overrideFlushIfFull f acc).world.pulling = acc.world.pulling ∧
    (overrideFlushIfFull f acc).world.events = acc.world.events ∧
    (overrideFlushIfFull f acc).world.released = acc.world.released := by
  unfold overrideFlushIfFull
  split <;> simp [World.updateLocalsFromScanning]

/-- The inline flush moves records from the pending batch to the commit log, and
neither drops nor adds any. -/
theorem overrideFlushIfFull_total (f : Folder) (acc : OverrideAcc) :
    (overrideFlushIfFull f acc).total = acc.total := by
  unfold overrideFlushIfFull OverrideAcc.total
  split <;> simp [World.updateLocalsFromScanning]

/-- The callback of `override` always asks for the next record. -/
theorem overrideVisit_continue (f : Folder) (snap : Snapshot) (acc : OverrideAcc)
    (fi : FileInfo) : (overrideVisit f snap acc fi).2 = true := by
  unfold overrideVisit
  simp only
  split <;> rfl

/-- The callback of `override` touches the world only through its inline flush. -/
theorem overrideVisit_world (f : Folder) (snap : Snapshot) (acc : OverrideAcc)
    (fi : FileInfo) :
    (overrideVisit f snap acc fi).1.world = (overrideFlushIfFull f acc).world := by
  unfold overrideVisit
  simp only
  split <;> rfl

/-- Starting from the empty batch the inline flush leaves the batch empty. -/
theorem overrideFlushIfFull_start_batch (f : Folder) (w : World) :
    (overrideFlushIfFull f (overrideStart w)).batch = [] := by
  unfold overrideFlushIfFull overrideStart
  split <;> rfl

/-- The callback of `override` appends to the batch, after the inline flush, exactly
the records it appends when started from the empty batch: what it appends does not
depend on the batch. -/
theorem overrideVisit_batch (f : Folder) (snap : Snapshot) (acc : OverrideAcc)
    (fi : FileInfo) :
    (overrideVisit f snap acc fi).1.batch
      = (overrideFlushIfFull f acc).batch ++ overrideRecords f snap fi := by
  unfold overrideRecords overrideVisit
  simp only
  split
  · simp [overrideFlushIfFull_start_batch]
  · simp [overrideFlushIfFull_start_batch]

/-- One callback run extends the records dealt with by the records of that run. -/
theorem overrideVisit_total (f : Folder) (snap : Snapshot) (acc : OverrideAcc)
    (fi : FileInfo) :
    (overrideVisit f snap acc fi).1.total = acc.total ++ overrideRecords f snap fi := by
  have h := overrideFlushIfFull_total f acc
  unfold OverrideAcc.total at h ⊢
  rw [overrideVisit_world, overrideVisit_batch, ← List.append_assoc, h]

/-- The whole iteration of `override` deals with the records of the callback runs,
in iteration order. -/
theorem override_iterate_total (f : Folder) (snap : Snapshot) (xs : List FileInfo)
    (acc : OverrideAcc) :
    (iterate (overrideVisit f snap) xs acc).total = acc.total ++ xs.flatMap (overrideRecords f snap) := by
  induction xs generalizing acc with
  | nil => simp [iterate]
  | cons x xs ih =>
    simp only [iterate, overrideVisit_continue, if_true]
    rw [ih, overrideVisit_total]
    simp

/-- The records `override` commits, over all batches in commit order, are the records
of the callback runs over the need list, in iteration order. -/
theorem override_scanning_flatten (f : Folder) (snap : Snapshot) (w : World) :
    (override f (Except.ok snap) w).2.scanning.flatten
      = w.scanning.flatten ++ snap.need.flatMap (overrideRecords f snap) := by
  have hw : (overrideStart ((w.setState .FolderScanning).dbSnapshot)).total = w.scanning.flatten := by
    simp [OverrideAcc.total, overrideStart, World.setState, World.dbSnapshot]
  have h : (iterate (overrideVisit f snap) snap.need
      { batch := [], batchSizeBytes := 0, world := (w.setState .FolderScanning).dbSnapshot }).total
        = w.scanning.flatten ++ snap.need.flatMap (overrideRecords f snap) := by
    rw [← hw]
    exact override_iterate_total f snap snap.need (overrideStart ((w.setState .FolderScanning).dbSnapshot))
  unfold OverrideAcc.total at h
  simp only [override, Snapshot.WithNeed]
  generalize iterate (overrideVisit f snap) snap.need
    { batch := [], batchSizeBytes := 0, world := (w.setState .FolderScanning).dbSnapshot } = acc at h ⊢
  split
  · simpa [World.setState, World.dbSnapshot, World.Release, World.updateLocalsFromScanning] using h
  · rename_i hlen
    have hnil : acc.batch = [] := by
      apply List.eq_nil_of_length_eq_zero
      omega
    rw [hnil, List.append_nil] at h
    simpa [World.setState, World.dbSnapshot, World.Release] using h

/-- The record the callback of `override` appends when the local record exists, is
not invalid and carries the needed name: the local record with the merged and bumped
version vector and a zero sequence. -/
theorem overrideRecords_replace (f : Folder) (snap : Snapshot) (need : FileInfo)
    (hok : (snap.Get need.Name).2 = true)
    (hvalid : (snap.Get need.Name).1.IsInvalid = false)
    (hname : (snap.Get need.Name).1.Name = need.Name) :
    overrideRecords f snap need =
      [{ (snap.Get need.Name).1 with
          Version := ((snap.Get need.Name).1.Version.Merge need.Version).Update f.shortID,
          Sequence := 0 }] := by
  unfold overrideRecords overrideVisit
  simp [hok, hvalid, hname, overrideFlushIfFull_start_batch]

/-- The callback of `override` appends nothing when the local record exists and is
invalid. -/
theorem overrideRecords_skip (f : Folder) (snap : Snapshot) (need : FileInfo)
    (hok : (snap.Get need.Name).2 = true)
    (hinvalid : (snap.Get need.Name).1.IsInvalid = true) :
    overrideRecords f snap need = [] := by
  unfold overrideRecords overrideVisit
  simp [hok, hinvalid, overrideFlushIfFull_start_batch]

/-- The record the callback of `override` appends when the local record is absent, or
is valid under another name: the needed record, set deleted, with a zero sequence. -/
theorem overrideRecords_tombstone (f : Folder) (snap : Snapshot) (need : FileInfo)
    (h : (snap.Get need.Name).2 = false ∨
      ((snap.Get need.Name).2 = true ∧ (snap.Get need.Name).1.IsInvalid = false ∧
        (snap.Get need.Name).1.Name ≠ need.Name)) :
    overrideRecords f snap need = [{ need.SetDeleted f.shortID with Sequence := 0 }] := by
  unfold overrideRecords overrideVisit
  rcases h with hno | ⟨hok, hvalid, hname⟩
  · simp [hno, overrideFlushIfFull_start_batch]
  · simp [hok, hvalid, hname, overrideFlushIfFull_start_batch]

/-- Every record the callback of `override` appends has a zero sequence. -/
theorem overrideRecords_sequence (f : Folder) (snap : Snapshot) (need r : FileInfo)
    (hr : r ∈ overrideRecords f snap need) : r.Sequence = 0 := by
  unfold overrideRecords overrideVisit at hr
  simp only at hr
  split at hr
  · simp [overrideFlushIfFull_start_batch] at hr
  · simp only [overrideFlushIfFull_start_batch, List.nil_append, List.mem_singleton] at hr
    rw [hr]

/-- What the callback of `override` appends depends on the snapshot only through its
lookup. -/
theorem overrideRecords_congr (f : Folder) (snap : Snapshot) (xs : List FileInfo) :
    overrideRecords f { snap with need := xs } = overrideRecords f snap :=
  rfl

theorem overrideVisit_sequenceReset (f : Folder) (snap : Snapshot) (w : World)
    (acc : OverrideAcc) (fi : FileInfo) (h : SequenceReset w acc) :
    SequenceReset w (overrideVisit f snap acc fi).1 := by
  obtain ⟨bs, hbs, hcommitted, hpending⟩ := h
  have hflush : SequenceReset w (overrideFlushIfFull f acc) := by
    unfold overrideFlushIfFull
    split
    · refine ⟨bs ++ [acc.batch], ?_, ?_, ?_⟩
      · simp [World.updateLocalsFromScanning, hbs]
      · intro b hb r hr
        rcases List.mem_append.mp hb with hb | hb
        · exact hcommitted b hb r hr
        · rw [List.mem_singleton.mp hb] at hr
          exact hpending r hr
      · intro r hr
        cases hr
    · exact ⟨bs, hbs, hcommitted, hpending⟩
  obtain ⟨bs', hbs', hcommitted', hpending'⟩ := hflush
  refine ⟨bs', ?_, hcommitted', ?_⟩
  · rw [overrideVisit_world]
    exact hbs'
  · intro r hr
    rw [overrideVisit_batch] at hr
    rcases List.mem_append.mp hr with hr | hr
    · exact hpending' r hr
    · exact overrideRecords_sequence f snap fi r hr

/-! ## Claims on `override` -/

/-- C1 (override version dominance). For a needed record `need` whose local record
exists, is not invalid and has the same name, the callback of `override` appends
exactly one record `r`; its version vector is
`Update(Merge(have.Version, need.Version), shortID)`, so its counter for the local
device is `max(have[d], need[d]) + 1`, every other counter is the component-wise
maximum, and the vector dominates both `have.Version` and `need.Version`; and when
`need` is on the need list, `r` is among the records `override` commits. -/
theorem override_version_dominance (f : Folder) (snap : Snapshot) (acc : OverrideAcc)
    (need : FileInfo)
    (hok : (snap.Get need.Name).2 = true)
    (hvalid : (snap.Get need.Name).1.IsInvalid = false)
    (hname : (snap.Get need.Name).1.Name = need.Name) :
    ∃ r : FileInfo,
      (overrideVisit f snap acc need).1.batch = (overrideFlushIfFull f acc).batch ++ [r] ∧
      r.Version = ((snap.Get need.Name).1.Version.Merge need.Version).Update f.shortID ∧
      r.Version.Counter f.shortID
        = max ((snap.Get need.Name).1.Version.Counter f.shortID)
            (need.Version.Counter f.shortID) + 1 ∧
      (∀ d, d ≠ f.shortID →
        r.Version.Counter d
          = max ((snap.Get need.Name).1.Version.Counter d) (need.Version.Counter d)) ∧
      r.Version.Dominates (snap.Get need.Name).1.Version = true ∧
      r.Version.Dominates need.Version = true ∧
      (∀ w, need ∈ snap.need → r ∈ (override f (Except.ok snap) w).2.scanning.flatten) := by
  have hself := VersionVector.Counter_Update_self
    ((snap.Get need.Name).1.Version.Merge need.Version) f.shortID
  have hother := VersionVector.Counter_Update_other
    ((snap.Get need.Name).1.Version.Merge need.Version) f.shortID
  simp only [VersionVector.Counter_Merge] at hself hother
  refine ⟨{ (snap.Get need.Name).1 with
      Version := ((snap.Get need.Name).1.Version.Merge need.Version).Update f.shortID,
      Sequence := 0 }, ?_, rfl, hself, ?_, ?_, ?_, ?_⟩
  · rw [overrideVisit_batch, overrideRecords_replace f snap need hok hvalid hname]
  · intro d hd
    exact hother d hd
  · rw [VersionVector.Dominates_iff]
    intro d
    by_cases hd : d = f.shortID
    · subst hd
      show _ ≤ VersionVector.Counter (VersionVector.Update _ _) _
      rw [hself]
      omega
    · show _ ≤ VersionVector.Counter (VersionVector.Update _ _) _
      rw [hother d hd]
      omega
  · rw [VersionVector.Dominates_iff]
    intro d
    by_cases hd : d = f.shortID
    · subst hd
      show _ ≤ VersionVector.Counter (VersionVector.Update _ _) _
      rw [hself]
      omega
    · show _ ≤ VersionVector.Counter (VersionVector.Update _ _) _
      rw [hother d hd]
      omega
  · intro w hmem
    rw [override_scanning_flatten]
    apply List.mem_append_right
    rw [List.mem_flatMap]
    exact ⟨need, hmem, by rw [overrideRecords_replace f snap need hok hvalid hname]; simp⟩

/-- C1, scenario of section 8: local `{D1:2}`, needed `{D1:1, D2:3}`, local device
`D1`; the hypotheses hold and the committed record has version `{D1:3, D2:3}`. -/
theorem override_version_dominance_witness :
    (exSnapshot.Get exNeed.Name).2 = true ∧
    (exSnapshot.Get exNeed.Name).1.IsInvalid = false ∧
    (exSnapshot.Get exNeed.Name).1.Name = exNeed.Name ∧
    ∃ r : FileInfo,
      (overrideVisit exFolder exSnapshot (overrideStart World.init) exNeed).1.batch = [r] ∧
      r.Version = { Counters := [{ ID := 1, Value := 3 }, { ID := 2, Value := 3 }] } ∧
      r.Version.Counter 1 = 3 ∧ r.Version.Counter 2 = 3 ∧
      r ∈ (override exFolder (Except.ok exSnapshot) World.init).2.scanning.flatten := by
  refine ⟨by decide, by decide, by decide, ?_⟩
  obtain ⟨r, hbatch, hversion, _, _, _, _, hrun⟩ :=
    override_version_dominance exFolder exSnapshot (overrideStart World.init) exNeed
      (by decide) (by decide) (by decide)
  have hv : r.Version = { Counters := [{ ID := 1, Value := 3 }, { ID := 2, Value := 3 }] } := by
    rw [hversion]; decide
  refine ⟨r, ?_, hv, ?_, ?_, ?_⟩
  · rw [hbatch, overrideFlushIfFull_start_batch]; rfl
  · rw [hv]; decide
  · rw [hv]; decide
  · exact hrun World.init (by decide)

/-- C2 (override skip-invalid). For a needed record whose local record exists and is
flagged invalid, the callback of `override` only performs its inline flush and asks
for the next record: it appends nothing, whatever the needed record is. Over a whole
run, removing such a record from the need list, wherever it stands, leaves the
committed records unchanged, and a run over that record alone commits no record. -/
theorem override_skip_invalid (f : Folder) (snap : Snapshot) (acc : OverrideAcc)
    (need : FileInfo)
    (hok : (snap.Get need.Name).2 = true)
    (hinvalid : (snap.Get need.Name).1.IsInvalid = true) :
    overrideVisit f snap acc need = (overrideFlushIfFull f acc, true) ∧
    (∀ (pre post : List FileInfo) (w : World),
      (override f (Except.ok { snap with need := pre ++ need :: post }) w).2.scanning.flatten
        = (override f (Except.ok { snap with need := pre ++ post }) w).2.scanning.flatten) ∧
    (∀ w : World,
      (override f (Except.ok { snap with need := [need] }) w).2.scanning.flatten
        = w.scanning.flatten) := by
  have hskip := overrideRecords_skip f snap need hok hinvalid
  refine ⟨?_, ?_, ?_⟩
  · unfold overrideVisit
    simp [hok, hinvalid]
  · intro pre post w
    rw [override_scanning_flatten, override_scanning_flatten]
    simp only [List.flatMap_append, List.flatMap_cons, overrideRecords_congr, hskip,
      List.nil_append]
  · intro w
    rw [override_scanning_flatten]
    simp [overrideRecords_congr, hskip]

/-- C2, scenario: the local record `"bad.txt"` must be rescanned; the hypotheses hold
and `override` over that needed record alone commits nothing. -/
theorem override_skip_invalid_witness :
    (exSnapshot.Get exNeedBad.Name).2 = true ∧
    (exSnapshot.Get exNeedBad.Name).1.IsInvalid = true ∧
    (overrideVisit exFolder exSnapshot (overrideStart World.init) exNeedBad).1.batch = [] ∧
    (override exFolder (Except.ok { exSnapshot with need := [exNeedBad] })
      World.init).2.scanning.flatten = [] := by
  have h := override_skip_invalid exFolder exSnapshot (overrideStart World.init) exNeedBad
    (by decide) (by decide)
  refine ⟨by decide, by decide, ?_, ?_⟩
  · rw [h.1]
    exact overrideFlushIfFull_start_batch exFolder World.init
  · rw [h.2.2 World.init]
    rfl

/-- C3 (override tombstone). For a needed record `need` whose local record is absent,
or is present, not invalid and named differently, the callback of `override` appends
exactly one record: `need` set deleted by the local device (`SetDeleted(shortID)`)
with `Sequence` zero. It has the name of `need`, is flagged deleted, and every field
is computed from `need` and the local short ID alone, none from a local record. When
`need` is on the need list the record is among those `override` commits. -/
theorem override_tombstone (f : Folder) (snap : Snapshot) (acc : OverrideAcc)
    (need : FileInfo)
    (h : (snap.Get need.Name).2 = false ∨
      ((snap.Get need.Name).2 = true ∧ (snap.Get need.Name).1.IsInvalid = false ∧
        (snap.Get need.Name).1.Name ≠ need.Name)) :
    ∃ r : FileInfo,
      (overrideVisit f snap acc need).1.batch = (overrideFlushIfFull f acc).batch ++ [r] ∧
      r = { need.SetDeleted f.shortID with Sequence := 0 } ∧
      r.Sequence = 0 ∧ r.Name = need.Name ∧ r.IsDeleted = true ∧
      r.Version = need.Version.Update f.shortID ∧
      r.Size = need.Size ∧ r.ModifiedS = need.ModifiedS ∧ r.Permissions = need.Permissions ∧
      r.RawInvalid = need.RawInvalid ∧ r.Ignored = need.Ignored ∧
      r.MustRescan = need.MustRescan ∧
      (∀ w, need ∈ snap.need → r ∈ (override f (Except.ok snap) w).2.scanning.flatten) := by
  have hrec := overrideRecords_tombstone f snap need h
  refine ⟨{ need.SetDeleted f.shortID with Sequence := 0 }, ?_, rfl, rfl, rfl, rfl, rfl, rfl,
    rfl, rfl, rfl, rfl, rfl, ?_⟩
  · rw [overrideVisit_batch, hrec]
  · intro w hmem
    rw [override_scanning_flatten]
    apply List.mem_append_right
    rw [List.mem_flatMap]
    exact ⟨need, hmem, by rw [hrec]; simp⟩

/-- C3, scenario: the local device has no `"d.txt"`; the hypothesis holds and the
committed record is the needed record, deleted, with sequence zero and the local
device stamped into its version. -/
theorem override_tombstone_witness :
    ((exSnapshot.Get exNeedPlain.Name).2 = false ∨
      ((exSnapshot.Get exNeedPlain.Name).2 = true ∧
        (exSnapshot.Get exNeedPlain.Name).1.IsInvalid = false ∧
        (exSnapshot.Get exNeedPlain.Name).1.Name ≠ exNeedPlain.Name)) ∧
    ∃ r : FileInfo,
      (overrideVisit exFolder exSnapshot (overrideStart World.init) exNeedPlain).1.batch = [r] ∧
      r = { exNeedPlain with
            Deleted := true, Sequence := 0,
            Version := { Counters := [{ ID := 2, Value := 1 }, { ID := 1, Value := 1 }] } } ∧
      r ∈ (override exFolder (Except.ok exSnapshot) World.init).2.scanning.flatten := by
  refine ⟨Or.inl (by decide), ?_⟩
  obtain ⟨r, hbatch, hr, _, _, _, _, _, _, _, _, _, _, hrun⟩ :=
    override_tombstone exFolder exSnapshot (overrideStart World.init) exNeedPlain
      (Or.inl (by decide))
  refine ⟨r, ?_, ?_, hrun World.init (by decide)⟩
  · rw [hbatch, overrideFlushIfFull_start_batch]; rfl
  · rw [hr]; decide

/-- C4 (override content-metadata-wins). For a needed record `need` whose local record
`have` exists, is not invalid and has the same name, the record the callback of
`override` appends equals `have` in every field other than `Version` and `Sequence`
(name, size, modification time, permissions and all flags), and a needed record with
the same name and version vector but any other fields yields the same batch: none of
the other fields of `need` survive. -/
theorem override_content_metadata_wins (f : Folder) (snap : Snapshot) (acc : OverrideAcc)
    (need : FileInfo)
    (hok : (snap.Get need.Name).2 = true)
    (hvalid : (snap.Get need.Name).1.IsInvalid = false)
    (hname : (snap.Get need.Name).1.Name = need.Name) :
    (∃ r : FileInfo,
      (overrideVisit f snap acc need).1.batch = (overrideFlushIfFull f acc).batch ++ [r] ∧
      r.Name = (snap.Get need.Name).1.Name ∧
      r.Size = (snap.Get need.Name).1.Size ∧
      r.ModifiedS = (snap.Get need.Name).1.ModifiedS ∧
      r.Permissions = (snap.Get need.Name).1.Permissions ∧
      r.Deleted = (snap.Get need.Name).1.Deleted ∧
      r.RawInvalid = (snap.Get need.Name).1.RawInvalid ∧
      r.Ignored = (snap.Get need.Name).1.Ignored ∧
      r.MustRescan = (snap.Get need.Name).1.MustRescan ∧
      (∀ w, need ∈ snap.need → r ∈ (override f (Except.ok snap) w).2.scanning.flatten)) ∧
    (∀ other : FileInfo, other.Name = need.Name → other.Version = need.Version →
      (overrideVisit f snap acc other).1.batch = (overrideVisit f snap acc need).1.batch) := by
  have hrec := overrideRecords_replace f snap need hok hvalid hname
  constructor
  · refine ⟨{ (snap.Get need.Name).1 with
        Version := ((snap.Get need.Name).1.Version.Merge need.Version).Update f.shortID,
        Sequence := 0 }, ?_, rfl, rfl, rfl, rfl, rfl, rfl, rfl, rfl, ?_⟩
    · rw [overrideVisit_batch, hrec]
    · intro w hmem
      rw [override_scanning_flatten]
      apply List.mem_append_right
      rw [List.mem_flatMap]
      exact ⟨need, hmem, by rw [hrec]; simp⟩
  · intro other hn hv
    have hrec' := overrideRecords_replace f snap other (by rw [hn]; exact hok)
      (by rw [hn]; exact hvalid) (by rw [hn]; exact hname)
    rw [overrideVisit_batch, overrideVisit_batch, hrec, hrec', hn, hv]

/-- C4, scenario of section 8: the needed record has size 99 and time 101, the local
record size 10 and time 100; the hypotheses hold and the appended record carries the
local size, time and permissions. -/
theorem override_content_metadata_wins_witness :
    (exSnapshot.Get exNeed.Name).2 = true ∧
    (exSnapshot.Get exNeed.Name).1.IsInvalid = false ∧
    (exSnapshot.Get exNeed.Name).1.Name = exNeed.Name ∧
    ∃ r : FileInfo,
      (overrideVisit exFolder exSnapshot (overrideStart World.init) exNeed).1.batch = [r] ∧
      r.Name = "b.txt" ∧ r.Size = 10 ∧ r.ModifiedS = 100 ∧ r.Permissions = 420 ∧
      exNeed.Size = 99 ∧ exNeed.ModifiedS = 101 := by
  refine ⟨by decide, by decide, by decide, ?_⟩
  obtain ⟨⟨r, hbatch, hn, hs, hm, hp, _⟩, _⟩ :=
    override_content_metadata_wins exFolder exSnapshot (overrideStart World.init) exNeed
      (by decide) (by decide) (by decide)
  refine ⟨r, ?_, ?_, ?_, ?_, ?_, by decide, by decide⟩
  · rw [hbatch, overrideFlushIfFull_start_batch]; rfl
  · rw [hn]; decide
  · rw [hs]; decide
  · rw [hm]; decide
  · rw [hp]; decide

/-- C5 (override sequence reset). Every record the callback of `override` appends to
the batch, tombstone or replacement alike, has `Sequence` zero, and so has every
record of every batch `override` passes to the commit path, whether the snapshot is
acquired or not. -/
theorem override_sequence_reset (f : Folder) :
    (∀ (snap : Snapshot) (acc : OverrideAcc) (need : FileInfo),
      ∃ rs : List FileInfo,
        (overrideVisit f snap acc need).1.batch = (overrideFlushIfFull f acc).batch ++ rs ∧
        ∀ r ∈ rs, r.Sequence = 0) ∧
    (∀ (db : Except Error Snapshot) (w : World),
      ∃ bs : List (List FileInfo),
        (override f db w).2.scanning = w.scanning ++ bs ∧
        ∀ b ∈ bs, ∀ r ∈ b, r.Sequence = 0) := by
  constructor
  · intro snap acc need
    exact ⟨overrideRecords f snap need, overrideVisit_batch f snap acc need,
      fun r hr => overrideRecords_sequence f snap need r hr⟩
  · intro db w
    cases db with
    | error err => exact ⟨[], by simp [override, World.setState, World.dbSnapshot], by simp⟩
    | ok snap =>
      have hinv := iterate_invariant (overrideVisit f snap) (SequenceReset w)
        (fun s x hs => overrideVisit_sequenceReset f snap w s x hs) snap.need
        { batch := [], batchSizeBytes := 0, world := (w.setState .FolderScanning).dbSnapshot }
        ⟨[], by simp [World.setState, World.dbSnapshot], by simp, by simp⟩
      simp only [override, Snapshot.WithNeed]
      generalize iterate (overrideVisit f snap) snap.need
        { batch := [], batchSizeBytes := 0, world := (w.setState .FolderScanning).dbSnapshot } = last
        at hinv ⊢
      obtain ⟨bs, hbs, hcommitted, hpending⟩ := hinv
      split
      · refine ⟨bs ++ [last.batch], ?_, ?_⟩
        · simp only [World.setState, World.dbSnapshot, World.Release, World.updateLocalsFromScanning]
          rw [hbs, List.append_assoc]
        · intro b hb r hr
          rcases List.mem_append.mp hb with hb | hb
          · exact hcommitted b hb r hr
          · rw [List.mem_singleton.mp hb] at hr
            exact hpending r hr
      · exact ⟨bs, by simpa [World.setState, World.dbSnapshot, World.Release] using hbs, hcommitted⟩

/-! ## The batch accumulator in `pull` -/

/-- Flushing moves the pending records to the commit log of `pull`, and neither drops
nor adds any. -/
theorem flush_pullTotal (b : fileInfoBatch) (w : World) :
    pullTotal (b.flush pullFlushFn w) = pullTotal (b, w) := by
  unfold fileInfoBatch.flush pullTotal pullFlushFn newFileInfoBatch
  cases hb : b.infos with
  | nil => simp
  | cons x xs => simp [World.updateLocalsFromPulling]

/-- Flushing leaves every part of the world other than the commit log of `pull`
alone. -/
theorem flush_world (b : fileInfoBatch) (w : World) :
    (b.flush pullFlushFn w).2.events = w.events ∧
    (b.flush pullFlushFn w).2.scanning = w.scanning ∧
    (b.flush pullFlushFn w).2.state = w.state ∧
    (b.flush pullFlushFn w).2.transitions = w.transitions ∧
    (b.flush pullFlushFn w).2.released = w.released := by
  unfold fileInfoBatch.flush pullFlushFn
  simp only
  split <;> simp [World.updateLocalsFromPulling]

theorem flushIfFull_pullTotal (f : Folder) (b : fileInfoBatch) (w : World) :
    pullTotal (b.flushIfFull f pullFlushFn w) = pullTotal (b, w) := by
  unfold fileInfoBatch.flushIfFull
  split
  · exact flush_pullTotal b w
  · rfl

theorem flushIfFull_world (f : Folder) (b : fileInfoBatch) (w : World) :
    (b.flushIfFull f pullFlushFn w).2.events = w.events ∧
    (b.flushIfFull f pullFlushFn w).2.scanning = w.scanning ∧
    (b.flushIfFull f pullFlushFn w).2.state = w.state ∧
    (b.flushIfFull f pullFlushFn w).2.transitions = w.transitions ∧
    (b.flushIfFull f pullFlushFn w).2.released = w.released := by
  unfold fileInfoBatch.flushIfFull
  split
  · exact flush_world b w
  · simp

/-- On the empty batch `flushIfFull` does nothing. -/
theorem flushIfFull_new (f : Folder) (w : World) :
    newFileInfoBatch.flushIfFull f pullFlushFn w = (newFileInfoBatch, w) := by
  unfold fileInfoBatch.flushIfFull fileInfoBatch.flush newFileInfoBatch
  split <;> simp

/-! ## The callback of `pull` -/

/-- The callback of `pull` always asks for the next record. -/
theorem pullVisit_continue (f : Folder) (snap : Snapshot) (s : fileInfoBatch × World)
    (intf : FileInfo) : (pullVisit f snap s intf).2 = true := by
  unfold pullVisit
  simp only
  split
  · rfl
  · split
    · split
      · rfl
      · split <;> rfl
    · split <;> rfl

/-- After its `flushIfFull` the callback of `pull` appends to the batch exactly the
records it appends when started from the empty batch, and leaves the commit log
alone. -/
theorem pullVisit_batch (f : Folder) (snap : Snapshot) (s : fileInfoBatch × World)
    (intf : FileInfo) :
    (pullVisit f snap s intf).1.1.infos
        = (s.1.flushIfFull f pullFlushFn s.2).1.infos ++ pullAppended f snap intf ∧
    (pullVisit f snap s intf).1.2.pulling = (s.1.flushIfFull f pullFlushFn s.2).2.pulling := by
  unfold pullAppended pullVisit
  simp only [flushIfFull_new]
  split
  · simp [fileInfoBatch.append, newFileInfoBatch]
  · split
    · split
      · simp [fileInfoBatch.append, newFileInfoBatch]
      · split
        · simp [World.Log, newFileInfoBatch]
        · simp [newFileInfoBatch]
    · split
      · simp [newFileInfoBatch]
      · simp [fileInfoBatch.append, newFileInfoBatch]

/-- The callback of `pull` extends the event log by exactly the events it logs when
started from a world without events. -/
theorem pullVisit_events (f : Folder) (snap : Snapshot) (s : fileInfoBatch × World)
    (intf : FileInfo) :
    (pullVisit f snap s intf).1.2.events = s.2.events ++ pullLogged f snap intf := by
  have hw := (flushIfFull_world f s.1 s.2).1
  unfold pullLogged pullVisit
  simp only [flushIfFull_new]
  split
  · simp [hw, World.init]
  · split
    · split
      · simp [hw, World.init]
      · split
        · simp [World.Log, hw, World.init]
        · simp [hw, World.init]
    · split
      · simp [hw, World.init]
      · simp [hw, World.init]

/-- One callback run of `pull` extends the records dealt with by the records of that
run. -/
theorem pullVisit_pullTotal (f : Folder) (snap : Snapshot) (s : fileInfoBatch × World)
    (intf : FileInfo) :
    pullTotal (pullVisit f snap s intf).1 = pullTotal s ++ pullAppended f snap intf := by
  have h := flushIfFull_pullTotal f s.1 s.2
  have hb := pullVisit_batch f snap s intf
  unfold pullTotal at h ⊢
  rw [hb.1, hb.2, ← List.append_assoc, h]

/-- The whole iteration of `pull` deals with the records of the callback runs, and logs
the events of the callback runs, in iteration order. -/
theorem pull_iterate (f : Folder) (snap : Snapshot) (xs : List FileInfo)
    (s : fileInfoBatch × World) :
    pullTotal (iterate (pullVisit f snap) xs s) = pullTotal s ++ xs.flatMap (pullAppended f snap) ∧
    (iterate (pullVisit f snap) xs s).2.events
      = s.2.events ++ xs.flatMap (pullLogged f snap) := by
  induction xs generalizing s with
  | nil => simp [iterate]
  | cons x xs ih =>
    simp only [iterate, pullVisit_continue, if_true]
    obtain ⟨h1, h2⟩ := ih (pullVisit f snap s x).1
    rw [h1, h2, pullVisit_pullTotal, pullVisit_events]
    simp

/-- The records `pull` commits, over all batches in commit order, are the records the
callback runs append over the need list, in iteration order; the events it logs are
those of the callback runs. -/
theorem pull_run (f : Folder) (snap : Snapshot) (w : World) :
    (pull f (Except.ok snap) w).2.pulling.flatten
      = w.pulling.flatten ++ snap.need.flatMap (pullAppended f snap) ∧
    (pull f (Except.ok snap) w).2.events
      = w.events ++ snap.need.flatMap (pullLogged f snap) := by
  obtain ⟨h1, h2⟩ := pull_iterate f snap snap.need (newFileInfoBatch, w.dbSnapshot)
  simp only [pull, Snapshot.WithNeed]
  generalize iterate (pullVisit f snap) snap.need (newFileInfoBatch, w.dbSnapshot) = last at h1 h2 ⊢
  have hf := flush_pullTotal last.1 last.2
  have hw := (flush_world last.1 last.2).1
  constructor
  · have hnil : (last.1.flush pullFlushFn last.2).1.infos = [] := rfl
    unfold pullTotal at hf h1
    rw [hnil, List.append_nil] at hf
    simp only [World.Release]
    rw [hf, h1]
    simp [newFileInfoBatch, World.dbSnapshot]
  · simp only [World.Release]
    rw [hw, h2]
    rfl

/-- What the callback of `pull` appends and logs depends on the snapshot only through
its lookup. -/
theorem pullAppended_congr (f : Folder) (snap : Snapshot) (xs : List FileInfo) :
    pullAppended f { snap with need := xs } = pullAppended f snap ∧
    pullLogged f { snap with need := xs } = pullLogged f snap :=
  ⟨rfl, rfl⟩

/-- What the callback of `pull` does for a name the matcher ignores. -/
theorem pull_case_ignored (f : Folder) (snap : Snapshot) (intf : FileInfo)
    (hign : f.ShouldIgnore intf.Name = true) :
    pullAppended f snap intf = [intf.SetIgnored] ∧ pullLogged f snap intf = [] := by
  unfold pullAppended pullLogged pullVisit
  simp only [flushIfFull_new]
  simp [hign, fileInfoBatch.append, newFileInfoBatch, World.init]

/-- What the callback of `pull` does for a name that is not ignored and has a local
record. -/
theorem pull_case_present (f : Folder) (snap : Snapshot) (intf : FileInfo)
    (hign : f.ShouldIgnore intf.Name = false) (hok : (snap.Get intf.Name).2 = true) :
    pullAppended f snap intf
      = (if f.IsEquivalentOptional intf (snap.Get intf.Name).1 f.modTimeWindow f.IgnorePerms
            false 0 = true then [intf] else []) ∧
    pullLogged f snap intf = [] := by
  unfold pullAppended pullLogged pullVisit
  simp only [flushIfFull_new]
  cases heq : f.IsEquivalentOptional intf (snap.Get intf.Name).1 f.modTimeWindow f.IgnorePerms
    false 0 <;>
  simp [hign, hok, heq, fileInfoBatch.append, newFileInfoBatch, World.init]

/-- What the callback of `pull` does for a name that is not ignored and has no local
record. -/
theorem pull_case_absent (f : Folder) (snap : Snapshot) (intf : FileInfo)
    (hign : f.ShouldIgnore intf.Name = false) (hok : (snap.Get intf.Name).2 = false) :
    pullAppended f snap intf = (if intf.IsInvalid = true then [intf] else []) ∧
    pullLogged f snap intf
      = (if intf.IsInvalid = true then []
         else if intf.IsDeleted = true then
           [{ kind := EventType.Failure, message := deletedNeededMessage }]
         else []) := by
  unfold pullAppended pullLogged pullVisit
  simp only [flushIfFull_new]
  cases hinv : intf.IsInvalid <;> cases hdel : intf.IsDeleted <;>
  simp [hign, hok, hinv, hdel, fileInfoBatch.append, newFileInfoBatch, World.init, World.Log]

/-- A run of `pull` over a need list of one record, from the records and events of
that record's callback run. -/
theorem pull_single (f : Folder) (snap : Snapshot) (intf : FileInfo) (w : World) :
    (pull f (Except.ok { snap with need := [intf] }) w).2.pulling.flatten
      = w.pulling.flatten ++ pullAppended f snap intf ∧
    (pull f (Except.ok { snap with need := [intf] }) w).2.events
      = w.events ++ pullLogged f snap intf := by
  have h := pull_run f { snap with need := [intf] } w
  simp only [List.flatMap_cons, List.flatMap_nil, List.append_nil,
    (pullAppended_congr f snap [intf]).1, (pullAppended_congr f snap [intf]).2] at h
  exact h

/-! ## Claims on `pull` -/

/-- C6 (reconcile-by-metadata equivalence). For a needed candidate `N` whose name is
not ignored and for which the local device has a record `R`, the callback of `pull`
appends to the batch if and only if
`N.IsEquivalentOptional(R, modTimeWindow, IgnorePerms, false, 0)` holds; what it
appends is `N` itself, unchanged; when the test fails it appends nothing; in neither
case does it log an event. A run of `pull` over `N` alone commits `N` or nothing
accordingly, and when the test holds and `N` is on the need list, `N` is among the
records `pull` commits. -/
theorem pull_reconcile_equivalence (f : Folder) (snap : Snapshot) (s : fileInfoBatch × World)
    (N : FileInfo)
    (hign : f.ShouldIgnore N.Name = false) (hok : (snap.Get N.Name).2 = true) :
    pullVisit f snap s N
      = (if f.IsEquivalentOptional N (snap.Get N.Name).1 f.modTimeWindow f.IgnorePerms
            false 0 = true then
          (((s.1.flushIfFull f pullFlushFn s.2).1.append f N,
            (s.1.flushIfFull f pullFlushFn s.2).2), true)
         else (s.1.flushIfFull f pullFlushFn s.2, true)) ∧
    ((pullVisit f snap s N).1.1.infos = (s.1.flushIfFull f pullFlushFn s.2).1.infos ++ [N]
      ↔ f.IsEquivalentOptional N (snap.Get N.Name).1 f.modTimeWindow f.IgnorePerms
          false 0 = true) ∧
    ((pullVisit f snap s N).1.1.infos = (s.1.flushIfFull f pullFlushFn s.2).1.infos
      ↔ f.IsEquivalentOptional N (snap.Get N.Name).1 f.modTimeWindow f.IgnorePerms
          false 0 = false) ∧
    (pullVisit f snap s N).1.2.events = s.2.events ∧
    (∀ w : World,
      (pull f (Except.ok { snap with need := [N] }) w).2.pulling.flatten
        = w.pulling.flatten ++
          (if f.IsEquivalentOptional N (snap.Get N.Name).1 f.modTimeWindow f.IgnorePerms
              false 0 = true then [N] else []) ∧
      (pull f (Except.ok { snap with need := [N] }) w).2.events = w.events) ∧
    (f.IsEquivalentOptional N (snap.Get N.Name).1 f.modTimeWindow f.IgnorePerms false 0 = true →
      ∀ w : World, N ∈ snap.need → N ∈ (pull f (Except.ok snap) w).2.pulling.flatten) := by
  obtain ⟨happ, hlog⟩ := pull_case_present f snap N hign hok
  have hbatch := (pullVisit_batch f snap s N).1
  have hevents := pullVisit_events f snap s N
  rw [happ] at hbatch
  rw [hlog, List.append_nil] at hevents
  refine ⟨?_, ?_, ?_, hevents, ?_, ?_⟩
  · unfold pullVisit
    cases heq : f.IsEquivalentOptional N (snap.Get N.Name).1 f.modTimeWindow f.IgnorePerms
      false 0 <;> simp [hign, hok, heq]
  · rw [hbatch]
    cases heq : f.IsEquivalentOptional N (snap.Get N.Name).1 f.modTimeWindow f.IgnorePerms
      false 0 <;> simp
  · rw [hbatch]
    cases heq : f.IsEquivalentOptional N (snap.Get N.Name).1 f.modTimeWindow f.IgnorePerms
      false 0 <;> simp
  · intro w
    have h := pull_single f snap N w
    rw [happ, hlog, List.append_nil] at h
    exact h
  · intro heq w hmem
    rw [(pull_run f snap w).1]
    apply List.mem_append_right
    rw [List.mem_flatMap]
    exact ⟨N, hmem, by rw [happ, if_pos heq]; simp⟩

/-- C6, scenario of section 8: local `"b.txt"` with permissions `0644` and time `T`,
needed `"b.txt"` with the same permissions and time `T+1`, window `2`: the hypotheses
hold, the test holds, and `pull` commits the needed record with its own version and
sequence and logs nothing. -/
theorem pull_reconcile_equivalence_witness :
    exFolder.ShouldIgnore exNeedSame.Name = false ∧
    (exSnapshot.Get exNeedSame.Name).2 = true ∧
    exFolder.IsEquivalentOptional exNeedSame (exSnapshot.Get exNeedSame.Name).1
      exFolder.modTimeWindow exFolder.IgnorePerms false 0 = true ∧
    (pull exFolder (Except.ok { exSnapshot with need := [exNeedSame] })
      World.init).2.pulling.flatten = [exNeedSame] ∧
    (pull exFolder (Except.ok { exSnapshot with need := [exNeedSame] })
      World.init).2.events = [] ∧
    exNeedSame.Sequence = 41 ∧ exNeedSame ≠ exHave := by
  have h := (pull_reconcile_equivalence exFolder exSnapshot (newFileInfoBatch, World.init)
    exNeedSame (by decide) (by decide)).2.2.2.2.1 World.init
  have heq : exFolder.IsEquivalentOptional exNeedSame (exSnapshot.Get exNeedSame.Name).1
      exFolder.modTimeWindow exFolder.IgnorePerms false 0 = true := by decide
  rw [if_pos heq] at h
  exact ⟨by decide, by decide, heq, h.1, h.2, by decide, by decide⟩

/-- C7 (pull ignore branch). For a needed candidate whose name matches an ignore rule,
the callback of `pull` appends exactly one record, the candidate with the ignored flag
set, and asks for the next record; no hypothesis is made on the local lookup or on
the flags of the candidate, and no event is logged. A run of `pull` over that
candidate alone commits exactly that record, and when the candidate is on the need
list the record is among those `pull` commits. -/
theorem pull_ignore_branch (f : Folder) (snap : Snapshot) (s : fileInfoBatch × World)
    (N : FileInfo) (hign : f.ShouldIgnore N.Name = true) :
    pullVisit f snap s N
      = (((s.1.flushIfFull f pullFlushFn s.2).1.append f N.SetIgnored,
          (s.1.flushIfFull f pullFlushFn s.2).2), true) ∧
    (pullVisit f snap s N).1.1.infos
      = (s.1.flushIfFull f pullFlushFn s.2).1.infos ++ [N.SetIgnored] ∧
    N.SetIgnored = { N with Ignored := true } ∧
    (pullVisit f snap s N).1.2.events = s.2.events ∧
    (∀ w : World,
      (pull f (Except.ok { snap with need := [N] }) w).2.pulling.flatten
        = w.pulling.flatten ++ [N.SetIgnored] ∧
      (pull f (Except.ok { snap with need := [N] }) w).2.events = w.events) ∧
    (∀ w : World, N ∈ snap.need →
      N.SetIgnored ∈ (pull f (Except.ok snap) w).2.pulling.flatten) := by
  obtain ⟨happ, hlog⟩ := pull_case_ignored f snap N hign
  have hbatch := (pullVisit_batch f snap s N).1
  have hevents := pullVisit_events f snap s N
  rw [happ] at hbatch
  rw [hlog, List.append_nil] at hevents
  refine ⟨?_, hbatch, rfl, hevents, ?_, ?_⟩
  · unfold pullVisit
    simp [hign]
  · intro w
    have h := pull_single f snap N w
    rw [happ, hlog, List.append_nil] at h
    exact h
  · intro w hmem
    rw [(pull_run f snap w).1]
    apply List.mem_append_right
    rw [List.mem_flatMap]
    exact ⟨N, hmem, by rw [happ]; simp⟩

/-- C7, scenario: `"ignored.txt"` matches the ignore rule and has no local record; the
hypothesis holds and `pull` commits the candidate with the ignored flag set. -/
theorem pull_ignore_branch_witness :
    exFolder.ShouldIgnore exNeedIgnored.Name = true ∧
    (pull exFolder (Except.ok { exSnapshot with need := [exNeedIgnored] })
      World.init).2.pulling.flatten = [{ exNeedIgnored with Ignored := true }] ∧
    (pull exFolder (Except.ok { exSnapshot with need := [exNeedIgnored] })
      World.init).2.events = [] := by
  have h := (pull_ignore_branch exFolder exSnapshot (newFileInfoBatch, World.init)
    exNeedIgnored (by decide)).2.2.2.2.1 World.init
  exact ⟨by decide, h.1, h.2⟩

/-- C8 as stated fails: `"a.txt"` is not ignored, has no local record and is flagged
deleted, yet, being flagged invalid as well, `pull` logs no event for it and commits
the candidate. -/
theorem pull_deleted_needed_counterexample :
    exFolder.ShouldIgnore exNeedDeletedInvalid.Name = false ∧
    (exSnapshot.Get exNeedDeletedInvalid.Name).2 = false ∧
    exNeedDeletedInvalid.IsDeleted = true ∧
    (pull exFolder (Except.ok { exSnapshot with need := [exNeedDeletedInvalid] })
      World.init).2.events = [] ∧
    (pull exFolder (Except.ok { exSnapshot with need := [exNeedDeletedInvalid] })
      World.init).2.pulling = [[exNeedDeletedInvalid]] := by
  refine ⟨by decide, by decide, by decide, ?_, ?_⟩ <;> decide

/-- C8, amended (pull deleted-but-needed anomaly). For a needed candidate whose name
is not ignored, that has no local record, that is flagged deleted and that is not
flagged invalid, the callback of `pull` logs exactly one `Failure` event, appends
nothing to the batch, and asks for the next record. A run of `pull` over that
candidate alone logs that one event, commits no record and returns `(true, nil)`. -/
theorem pull_deleted_needed_anomaly (f : Folder) (snap : Snapshot) (s : fileInfoBatch × World)
    (N : FileInfo)
    (hign : f.ShouldIgnore N.Name = false) (hok : (snap.Get N.Name).2 = false)
    (hdel : N.IsDeleted = true) (hvalid : N.IsInvalid = false) :
    pullVisit f snap s N
      = (((s.1.flushIfFull f pullFlushFn s.2).1,
          (s.1.flushIfFull f pullFlushFn s.2).2.Log EventType.Failure deletedNeededMessage),
         true) ∧
    (pullVisit f snap s N).1.1.infos = (s.1.flushIfFull f pullFlushFn s.2).1.infos ∧
    (pullVisit f snap s N).1.2.pulling = (s.1.flushIfFull f pullFlushFn s.2).2.pulling ∧
    (pullVisit f snap s N).1.2.events
      = s.2.events ++ [{ kind := EventType.Failure, message := deletedNeededMessage }] ∧
    (∀ w : World,
      (pull f (Except.ok { snap with need := [N] }) w).1 = (true, none) ∧
      (pull f (Except.ok { snap with need := [N] }) w).2.pulling.flatten = w.pulling.flatten ∧
      (pull f (Except.ok { snap with need := [N] }) w).2.events
        = w.events ++ [{ kind := EventType.Failure, message := deletedNeededMessage }]) := by
  obtain ⟨happ, hlog⟩ := pull_case_absent f snap N hign hok
  simp only [hvalid, hdel, Bool.false_eq_true, if_false, if_true] at happ hlog
  have hbatch := pullVisit_batch f snap s N
  have hevents := pullVisit_events f snap s N
  rw [happ, List.append_nil] at hbatch
  rw [hlog] at hevents
  refine ⟨?_, hbatch.1, hbatch.2, hevents, ?_⟩
  · unfold pullVisit
    simp [hign, hok, hvalid, hdel]
  · intro w
    have h := pull_single f snap N w
    rw [happ, hlog, List.append_nil] at h
    exact ⟨rfl, h.1, h.2⟩

/-- C8, scenario of section 8: no local record for `"a.txt"`, needed `"a.txt"` with
`deleted=true`; the hypotheses hold, one `Failure` event is logged and nothing is
committed. -/
theorem pull_deleted_needed_anomaly_witness :
    exFolder.ShouldIgnore exNeedDeleted.Name = false ∧
    (exSnapshot.Get exNeedDeleted.Name).2 = false ∧
    exNeedDeleted.IsDeleted = true ∧
    exNeedDeleted.IsInvalid = false ∧
    (pull exFolder (Except.ok { exSnapshot with need := [exNeedDeleted] })
      World.init).1 = (true, none) ∧
    (pull exFolder (Except.ok { exSnapshot with need := [exNeedDeleted] })
      World.init).2.pulling.flatten = [] ∧
    (pull exFolder (Except.ok { exSnapshot with need := [exNeedDeleted] })
      World.init).2.events
        = [{ kind := EventType.Failure, message := deletedNeededMessage }] := by
  have h := (pull_deleted_needed_anomaly exFolder exSnapshot (newFileInfoBatch, World.init)
    exNeedDeleted (by decide) (by decide) (by decide) (by decide)).2.2.2.2 World.init
  exact ⟨by decide, by decide, by decide, by decide, h.1, h.2.1, h.2.2⟩

/-- C9 (pull invalid placeholder). For a needed candidate whose name is not ignored
and that has no local record: when it is flagged invalid, the callback of `pull`
appends the candidate unchanged and logs no event; when it is neither invalid nor
deleted, the callback appends nothing and logs nothing. A run of `pull` over that
candidate alone commits the candidate, respectively nothing. -/
theorem pull_invalid_placeholder (f : Folder) (snap : Snapshot) (s : fileInfoBatch × World)
    (N : FileInfo)
    (hign : f.ShouldIgnore N.Name = false) (hok : (snap.Get N.Name).2 = false) :
    (N.IsInvalid = true →
      pullVisit f snap s N
        = (((s.1.flushIfFull f pullFlushFn s.2).1.append f N,
            (s.1.flushIfFull f pullFlushFn s.2).2), true) ∧
      (pullVisit f snap s N).1.1.infos = (s.1.flushIfFull f pullFlushFn s.2).1.infos ++ [N] ∧
      (pullVisit f snap s N).1.2.events = s.2.events ∧
      (∀ w : World,
        (pull f (Except.ok { snap with need := [N] }) w).2.pulling.flatten
          = w.pulling.flatten ++ [N] ∧
        (pull f (Except.ok { snap with need := [N] }) w).2.events = w.events) ∧
      (∀ w : World, N ∈ snap.need → N ∈ (pull f (Except.ok snap) w).2.pulling.flatten)) ∧
    (N.IsInvalid = false → N.IsDeleted = false →
      pullVisit f snap s N = (s.1.flushIfFull f pullFlushFn s.2, true) ∧
      (pullVisit f snap s N).1.1.infos = (s.1.flushIfFull f pullFlushFn s.2).1.infos ∧
      (pullVisit f snap s N).1.2.events = s.2.events ∧
      (∀ w : World,
        (pull f (Except.ok { snap with need := [N] }) w).2.pulling.flatten
          = w.pulling.flatten ∧
        (pull f (Except.ok { snap with need := [N] }) w).2.events = w.events)) := by
  obtain ⟨happ, hlog⟩ := pull_case_absent f snap N hign hok
  have hbatch := (pullVisit_batch f snap s N).1
  have hevents := pullVisit_events f snap s N
  constructor
  · intro hinv
    simp only [hinv, if_true] at happ hlog
    rw [happ] at hbatch
    rw [hlog, List.append_nil] at hevents
    refine ⟨?_, hbatch, hevents, ?_, ?_⟩
    · unfold pullVisit
      simp [hign, hok, hinv]
    · intro w
      have h := pull_single f snap N w
      rw [happ, hlog, List.append_nil] at h
      exact h
    · intro w hmem
      rw [(pull_run f snap w).1]
      apply List.mem_append_right
      rw [List.mem_flatMap]
      exact ⟨N, hmem, by rw [happ]; simp⟩
  · intro hinv hdel
    simp only [hinv, hdel, Bool.false_eq_true, if_false] at happ hlog
    rw [happ, List.append_nil] at hbatch
    rw [hlog, List.append_nil] at hevents
    refine ⟨?_, hbatch, hevents, ?_⟩
    · unfold pullVisit
      simp [hign, hok, hinv, hdel]
    · intro w
      have h := pull_single f snap N w
      rw [happ, hlog, List.append_nil, List.append_nil] at h
      exact h

/-- C9, scenarios: `"c.txt"` has no local record and is flagged invalid, and `pull`
commits it unchanged; `"d.txt"` has no local record and no flag, and `pull` commits
nothing; no event is logged in either run. -/
theorem pull_invalid_placeholder_witness :
    (exFolder.ShouldIgnore exNeedInvalid.Name = false ∧
      (exSnapshot.Get exNeedInvalid.Name).2 = false ∧
      exNeedInvalid.IsInvalid = true ∧
      (pull exFolder (Except.ok { exSnapshot with need := [exNeedInvalid] })
        World.init).2.pulling.flatten = [exNeedInvalid] ∧
      (pull exFolder (Except.ok { exSnapshot with need := [exNeedInvalid] })
        World.init).2.events = []) ∧
    (exFolder.ShouldIgnore exNeedPlain.Name = false ∧
      (exSnapshot.Get exNeedPlain.Name).2 = false ∧
      exNeedPlain.IsInvalid = false ∧ exNeedPlain.IsDeleted = false ∧
      (pull exFolder (Except.ok { exSnapshot with need := [exNeedPlain] })
        World.init).2.pulling.flatten = [] ∧
      (pull exFolder (Except.ok { exSnapshot with need := [exNeedPlain] })
        World.init).2.events = []) := by
  have h1 := ((pull_invalid_placeholder exFolder exSnapshot (newFileInfoBatch, World.init)
    exNeedInvalid (by decide) (by decide)).1 (by decide)).2.2.2.1 World.init
  have h2 := ((pull_invalid_placeholder exFolder exSnapshot (newFileInfoBatch, World.init)
    exNeedPlain (by decide) (by decide)).2 (by decide) (by decide)).2.2.2 World.init
  exact ⟨⟨by decide, by decide, by decide, h1.1, h1.2⟩,
    ⟨by decide, by decide, by decide, by decide, h2.1, h2.2⟩⟩

/-- C10 (pull always reports progress). Whenever the snapshot is acquired, `pull`
returns `(true, nil)`, for every folder host (ignore matcher, thresholds), every
snapshot (local catalog and need list) and every world; with an empty need list it
does so without committing or logging anything. -/
theorem pull_reports_progress (f : Folder) (snap : Snapshot) (w : World) :
    (pull f (Except.ok snap) w).1 = (true, none) ∧
    (pull f (Except.ok { snap with need := [] }) w).1 = (true, none) ∧
    (pull f (Except.ok { snap with need := [] }) w).2.pulling = w.pulling ∧
    (pull f (Except.ok { snap with need := [] }) w).2.events = w.events := by
  refine ⟨rfl, rfl, ?_, ?_⟩ <;>
  simp [pull, Snapshot.WithNeed, iterate, fileInfoBatch.flush, newFileInfoBatch, World.Release,
    World.dbSnapshot]

/-! ## Folder state and the other logs during the iterations -/

/-- The callback of `pull` leaves the folder state, the transition log, the commit log
of `override` and the release count alone. -/
theorem pullVisit_frame (f : Folder) (snap : Snapshot) (s : fileInfoBatch × World)
    (intf : FileInfo) :
    (pullVisit f snap s intf).1.2.state = s.2.state ∧
    (pullVisit f snap s intf).1.2.transitions = s.2.transitions ∧
    (pullVisit f snap s intf).1.2.scanning = s.2.scanning ∧
    (pullVisit f snap s intf).1.2.released = s.2.released := by
  obtain ⟨_, hscan, hstate, htrans, hrel⟩ := flushIfFull_world f s.1 s.2
  unfold pullVisit
  simp only
  split
  · exact ⟨hstate, htrans, hscan, hrel⟩
  · split
    · split
      · exact ⟨hstate, htrans, hscan, hrel⟩
      · split
        · exact ⟨hstate, htrans, hscan, hrel⟩
        · exact ⟨hstate, htrans, hscan, hrel⟩
    · split
      · exact ⟨hstate, htrans, hscan, hrel⟩
      · exact ⟨hstate, htrans, hscan, hrel⟩

/-- The iteration of `pull` leaves the folder state, the transition log, the commit log
of `override` and the release count alone. -/
theorem pull_iterate_frame (f : Folder) (snap : Snapshot) (xs : List FileInfo)
    (s : fileInfoBatch × World) :
    (iterate (pullVisit f snap) xs s).2.state = s.2.state ∧
    (iterate (pullVisit f snap) xs s).2.transitions = s.2.transitions ∧
    (iterate (pullVisit f snap) xs s).2.scanning = s.2.scanning ∧
    (iterate (pullVisit f snap) xs s).2.released = s.2.released :=
  iterate_invariant (pullVisit f snap)
    (fun t => t.2.state = s.2.state ∧ t.2.transitions = s.2.transitions ∧
      t.2.scanning = s.2.scanning ∧ t.2.released = s.2.released)
    (fun t x ht => by
      obtain ⟨h1, h2, h3, h4⟩ := pullVisit_frame f snap t x
      exact ⟨h1.trans ht.1, h2.trans ht.2.1, h3.trans ht.2.2.1, h4.trans ht.2.2.2⟩)
    xs s ⟨rfl, rfl, rfl, rfl⟩

/-- The iteration of `override` leaves the folder state, the transition log, the commit
log of `pull`, the event log and the release count alone. -/
theorem override_iterate_frame (f : Folder) (snap : Snapshot) (xs : List FileInfo)
    (acc : OverrideAcc) :
    (iterate (overrideVisit f snap) xs acc).world.state = acc.world.state ∧
    (iterate (overrideVisit f snap) xs acc).world.transitions = acc.world.transitions ∧
    (iterate (overrideVisit f snap) xs acc).world.pulling = acc.world.pulling ∧
    (iterate (overrideVisit f snap) xs acc).world.events = acc.world.events ∧
    (iterate (overrideVisit f snap) xs acc).world.released = acc.world.released :=
  iterate_invariant (overrideVisit f snap)
    (fun t => t.world.state = acc.world.state ∧ t.world.transitions = acc.world.transitions ∧
      t.world.pulling = acc.world.pulling ∧ t.world.events = acc.world.events ∧
      t.world.released = acc.world.released)
    (fun t x ht => by
      obtain ⟨h1, h2, h3, h4, h5⟩ := overrideFlushIfFull_world f t
      rw [overrideVisit_world]
      exact ⟨h1.trans ht.1, h2.trans ht.2.1, h3.trans ht.2.2.1, h4.trans ht.2.2.2.1,
        h5.trans ht.2.2.2.2⟩)
    xs acc ⟨rfl, rfl, rfl, rfl, rfl⟩

/-- The world `override` returns after a successful acquisition, part by part: the
state log gains `Scanning` and `Idle`, the snapshot is released once, and the other
logs are those the iteration and the final commit leave. -/
theorem override_ok_frame (f : Folder) (snap : Snapshot) (w : World) :
    (override f (Except.ok snap) w).1 = none ∧
    (override f (Except.ok snap) w).2.state = FolderState.FolderIdle ∧
    (override f (Except.ok snap) w).2.transitions
      = w.transitions ++ [FolderState.FolderScanning, FolderState.FolderIdle] ∧
    (override f (Except.ok snap) w).2.pulling = w.pulling ∧
    (override f (Except.ok snap) w).2.events = w.events ∧
    (override f (Except.ok snap) w).2.released = w.released + 1 := by
  obtain ⟨_, h2, h3, h4, h5⟩ := override_iterate_frame f snap snap.need
    { batch := [], batchSizeBytes := 0, world := (w.setState .FolderScanning).dbSnapshot }
  simp only [override, Snapshot.WithNeed]
  generalize iterate (overrideVisit f snap) snap.need
    { batch := [], batchSizeBytes := 0, world := (w.setState .FolderScanning).dbSnapshot } = last
    at h2 h3 h4 h5 ⊢
  simp only [World.setState, World.dbSnapshot] at h2 h3 h4 h5
  split <;>
  simp [World.setState, World.dbSnapshot, World.Release, World.updateLocalsFromScanning, h2, h3, h4, h5]

/-- The world `pull` returns after a successful acquisition, part by part: the snapshot
is released once, and the folder state, the state log and the commit log of `override`
are untouched. -/
theorem pull_ok_frame (f : Folder) (snap : Snapshot) (w : World) :
    (pull f (Except.ok snap) w).2.state = w.state ∧
    (pull f (Except.ok snap) w).2.transitions = w.transitions ∧
    (pull f (Except.ok snap) w).2.scanning = w.scanning ∧
    (pull f (Except.ok snap) w).2.released = w.released + 1 := by
  obtain ⟨h1, h2, h3, h4⟩ := pull_iterate_frame f snap snap.need (newFileInfoBatch, w.dbSnapshot)
  simp only [pull, Snapshot.WithNeed]
  generalize iterate (pullVisit f snap) snap.need (newFileInfoBatch, w.dbSnapshot) = last
    at h1 h2 h3 h4 ⊢
  obtain ⟨_, g3, g1, g2, g4⟩ := flush_world last.1 last.2
  simp only [World.Release]
  exact ⟨g1.trans h1, g2.trans h2, g3.trans h3, by rw [g4, h4]; rfl⟩

/-! ## The sequence of observable calls -/

/-- After its one `flushIfFull`, the callback of `pull` does one of three things:
nothing more, one `append`, or one `Log`. -/
theorem pullVisit_shape (f : Folder) (snap : Snapshot) (s : fileInfoBatch × World)
    (intf : FileInfo) :
    (pullVisit f snap s intf).1 = s.1.flushIfFull f pullFlushFn s.2 ∨
    (∃ r : FileInfo, (pullVisit f snap s intf).1
      = ((s.1.flushIfFull f pullFlushFn s.2).1.append f r,
         (s.1.flushIfFull f pullFlushFn s.2).2)) ∨
    (pullVisit f snap s intf).1
      = ((s.1.flushIfFull f pullFlushFn s.2).1,
         (s.1.flushIfFull f pullFlushFn s.2).2.Log EventType.Failure deletedNeededMessage) := by
  unfold pullVisit
  simp only
  split
  · exact Or.inr (Or.inl ⟨intf.SetIgnored, rfl⟩)
  · split
    · split
      · exact Or.inr (Or.inl ⟨intf, rfl⟩)
      · split
        · exact Or.inr (Or.inr rfl)
        · exact Or.inl rfl
    · split
      · exact Or.inl rfl
      · exact Or.inr (Or.inl ⟨intf, rfl⟩)


/-- The inline flush of `override` adds to the sequence of calls nothing, or the one
commit it adds to the commit log. -/
theorem overrideFlushIfFull_trace (f : Folder) (acc : OverrideAcc) :
    ∃ bs : List (List FileInfo),
      (overrideFlushIfFull f acc).world.trace
        = acc.world.trace ++ bs.map Action.updateLocalsFromScanning ∧
      (overrideFlushIfFull f acc).world.scanning = acc.world.scanning ++ bs := by
  unfold overrideFlushIfFull
  split
  · exact ⟨[acc.batch], rfl, rfl⟩
  · exact ⟨[], by simp, by simp⟩

/-- During the iteration of `override` the only calls are commits, the same and in the
same order as in the commit log. -/
theorem override_iterate_trace (f : Folder) (snap : Snapshot) (xs : List FileInfo)
    (acc : OverrideAcc) :
    ∃ bs : List (List FileInfo),
      (iterate (overrideVisit f snap) xs acc).world.trace
        = acc.world.trace ++ bs.map Action.updateLocalsFromScanning ∧
      (iterate (overrideVisit f snap) xs acc).world.scanning = acc.world.scanning ++ bs :=
  iterate_invariant (overrideVisit f snap)
    (fun t => ∃ bs : List (List FileInfo),
      t.world.trace = acc.world.trace ++ bs.map Action.updateLocalsFromScanning ∧
      t.world.scanning = acc.world.scanning ++ bs)
    (fun t x ht => by
      obtain ⟨bs, h1, h2⟩ := ht
      obtain ⟨extra, g1, g2⟩ := overrideFlushIfFull_trace f t
      rw [overrideVisit_world, g1, g2, h1, h2]
      exact ⟨bs ++ extra, by simp, by simp⟩)
    xs acc ⟨[], by simp, by simp⟩

/-- The calls of a successful `override`, in order: `setState(FolderScanning)`,
`dbSnapshot()`, the commits of the commit log, `Release()`, `setState(FolderIdle)`. -/
theorem override_trace_ok (f : Folder) (snap : Snapshot) (w : World) :
    ∃ bs : List (List FileInfo),
      (override f (Except.ok snap) w).2.trace
        = w.trace ++ [Action.setState FolderState.FolderScanning, Action.dbSnapshot]
          ++ bs.map Action.updateLocalsFromScanning
          ++ [Action.Release, Action.setState FolderState.FolderIdle] ∧
      (override f (Except.ok snap) w).2.scanning = w.scanning ++ bs := by
  obtain ⟨bs, h1, h2⟩ := override_iterate_trace f snap snap.need
    { batch := [], batchSizeBytes := 0, world := (w.setState .FolderScanning).dbSnapshot }
  simp only [override, Snapshot.WithNeed]
  generalize iterate (overrideVisit f snap) snap.need
    { batch := [], batchSizeBytes := 0, world := (w.setState .FolderScanning).dbSnapshot }
    = last at h1 h2 ⊢
  simp only [World.setState, World.dbSnapshot] at h1 h2
  split
  · refine ⟨bs ++ [last.batch], ?_, ?_⟩
    · simp [World.setState, World.Release, World.updateLocalsFromScanning, h1]
    · simp [World.setState, World.Release, World.updateLocalsFromScanning, h2]
  · refine ⟨bs, ?_, ?_⟩
    · simp [World.setState, World.Release, h1]
    · simp [World.setState, World.Release, h2]

/-- The calls of a failing `override`, in order: `setState(FolderScanning)`,
`dbSnapshot()`, `setState(FolderIdle)`. -/
theorem override_trace_error (f : Folder) (e : Error) (w : World) :
    (override f (Except.error e) w).2.trace
      = w.trace ++ [Action.setState FolderState.FolderScanning, Action.dbSnapshot,
          Action.setState FolderState.FolderIdle] := by
  simp [override, World.setState, World.dbSnapshot]

/-- Flushing the accumulator of `pull` adds to the sequence of calls at most a
commit. -/
theorem flush_trace (b : fileInfoBatch) (w : World) :
    ∃ added : List Action, (b.flush pullFlushFn w).2.trace = w.trace ++ added ∧
      ∀ a ∈ added, a.isPullStep = true := by
  unfold fileInfoBatch.flush pullFlushFn
  simp only
  split
  · exact ⟨[], by simp, by simp⟩
  · exact ⟨[Action.updateLocalsFromPulling b.infos], rfl, by simp [Action.isPullStep]⟩

/-- `flushIfFull` adds to the sequence of calls at most a commit. -/
theorem flushIfFull_trace (f : Folder) (b : fileInfoBatch) (w : World) :
    ∃ added : List Action, (b.flushIfFull f pullFlushFn w).2.trace = w.trace ++ added ∧
      ∀ a ∈ added, a.isPullStep = true := by
  unfold fileInfoBatch.flushIfFull
  split
  · exact flush_trace b w
  · exact ⟨[], by simp, by simp⟩

/-- The callback of `pull` adds to the sequence of calls only commits and logged
events. -/
theorem pullVisit_trace (f : Folder) (snap : Snapshot) (s : fileInfoBatch × World)
    (intf : FileInfo) :
    ∃ added : List Action, (pullVisit f snap s intf).1.2.trace = s.2.trace ++ added ∧
      ∀ a ∈ added, a.isPullStep = true := by
  obtain ⟨added, h, hall⟩ := flushIfFull_trace f s.1 s.2
  rcases pullVisit_shape f snap s intf with hs | ⟨r, hs⟩ | hs
  · rw [hs]
    exact ⟨added, h, hall⟩
  · rw [hs]
    exact ⟨added, h, hall⟩
  · rw [hs]
    refine ⟨added ++ [Action.Log EventType.Failure deletedNeededMessage], ?_, ?_⟩
    · simp [World.Log, h]
    · intro a ha
      rcases List.mem_append.mp ha with ha | ha
      · exact hall a ha
      · rw [List.mem_singleton.mp ha]
        rfl

/-- The calls of a successful `pull`, in order: `dbSnapshot()`, commits and logged
events, `Release()`. -/
theorem pull_trace_ok (f : Folder) (snap : Snapshot) (w : World) :
    ∃ added : List Action,
      (pull f (Except.ok snap) w).2.trace
        = w.trace ++ [Action.dbSnapshot] ++ added ++ [Action.Release] ∧
      ∀ a ∈ added, a.isPullStep = true := by
  have hinv := iterate_invariant (pullVisit f snap)
    (fun s => ∃ added : List Action, s.2.trace = w.dbSnapshot.trace ++ added ∧
      ∀ a ∈ added, a.isPullStep = true)
    (fun s x hs => by
      obtain ⟨added, h, hall⟩ := hs
      obtain ⟨more, g, gall⟩ := pullVisit_trace f snap s x
      refine ⟨added ++ more, by rw [g, h, List.append_assoc], ?_⟩
      intro a ha
      rcases List.mem_append.mp ha with ha | ha
      · exact hall a ha
      · exact gall a ha)
    snap.need (newFileInfoBatch, w.dbSnapshot) ⟨[], by simp, by simp⟩
  simp only [pull, Snapshot.WithNeed]
  generalize iterate (pullVisit f snap) snap.need (newFileInfoBatch, w.dbSnapshot) = last
    at hinv ⊢
  obtain ⟨added, h, hall⟩ := hinv
  obtain ⟨more, g, gall⟩ := flush_trace last.1 last.2
  refine ⟨added ++ more, ?_, ?_⟩
  · simp only [World.Release]
    rw [g, h]
    simp [World.dbSnapshot]
  · intro a ha
    rcases List.mem_append.mp ha with ha | ha
    · exact hall a ha
    · exact gall a ha

/-! ## Claims on failure, lifecycle and `PullErrors` -/

/-- C11 (snapshot failure is fatal and atomic). When the snapshot acquisition fails
with error `e`, `pull` returns `(false, e)` and its only call is the failed
acquisition: every log is as it was. `override` returns `e`, and its only calls are
`setState(FolderScanning)`, the failed acquisition and the deferred
`setState(FolderIdle)`: the error carries no snapshot to iterate, no batch reaches
either commit path, no event is logged and nothing is released. When the acquisition
succeeds `override` returns `nil`. -/
theorem snapshot_failure_fatal (f : Folder) (e : Error) (snap : Snapshot) (w : World) :
    pull f (Except.error e) w = ((false, some e), w.dbSnapshot) ∧
    (pull f (Except.error e) w).2.trace = w.trace ++ [Action.dbSnapshot] ∧
    (pull f (Except.error e) w).2.pulling = w.pulling ∧
    (pull f (Except.error e) w).2.scanning = w.scanning ∧
    (pull f (Except.error e) w).2.events = w.events ∧
    (pull f (Except.error e) w).2.released = w.released ∧
    (pull f (Except.error e) w).2.state = w.state ∧
    (pull f (Except.error e) w).2.transitions = w.transitions ∧
    override f (Except.error e) w
      = (some e,
         ((w.setState FolderState.FolderScanning).dbSnapshot).setState FolderState.FolderIdle) ∧
    (override f (Except.error e) w).2.trace
      = w.trace ++ [Action.setState FolderState.FolderScanning, Action.dbSnapshot,
          Action.setState FolderState.FolderIdle] ∧
    (override f (Except.error e) w).2.scanning = w.scanning ∧
    (override f (Except.error e) w).2.pulling = w.pulling ∧
    (override f (Except.error e) w).2.events = w.events ∧
    (override f (Except.error e) w).2.released = w.released ∧
    (override f (Except.ok snap) w).1 = none :=
  ⟨rfl, rfl, rfl, rfl, rfl, rfl, rfl, rfl, rfl, override_trace_error f e w, rfl, rfl, rfl, rfl,
    rfl⟩

/-- C12 (override lifecycle). On every execution of `override` the state transitions
it performs are exactly `Scanning` then `Idle`, and the folder is idle afterwards. In
the sequence of all its calls `setState(FolderScanning)` is the first, before the
snapshot acquisition and before every commit, and `setState(FolderIdle)` is the last,
on both exit paths: when the acquisition fails the calls are `setState(Scanning)`,
`dbSnapshot()`, `setState(Idle)`; when it succeeds they are `setState(Scanning)`,
`dbSnapshot()`, the commits of the commit log in order, `Release()`,
`setState(Idle)`. -/
theorem override_lifecycle (f : Folder) (w : World) :
    (∀ db : Except Error Snapshot,
      (override f db w).2.transitions
        = w.transitions ++ [FolderState.FolderScanning, FolderState.FolderIdle] ∧
      (override f db w).2.state = FolderState.FolderIdle) ∧
    (∀ e : Error,
      (override f (Except.error e) w).2.trace
        = w.trace ++ [Action.setState FolderState.FolderScanning, Action.dbSnapshot,
            Action.setState FolderState.FolderIdle]) ∧
    (∀ snap : Snapshot, ∃ bs : List (List FileInfo),
      (override f (Except.ok snap) w).2.trace
        = w.trace ++ [Action.setState FolderState.FolderScanning, Action.dbSnapshot]
          ++ bs.map Action.updateLocalsFromScanning
          ++ [Action.Release, Action.setState FolderState.FolderIdle] ∧
      (override f (Except.ok snap) w).2.scanning = w.scanning ++ bs) := by
  refine ⟨?_, fun e => override_trace_error f e w, fun snap => override_trace_ok f snap w⟩
  intro db
  cases db with
  | error err => exact ⟨by simp [override, World.setState, World.dbSnapshot], rfl⟩
  | ok snap => exact ⟨(override_ok_frame f snap w).2.2.1, (override_ok_frame f snap w).2.1⟩

/-- C13 as stated fails: a successful `pull` over the example need list performs no
state transition at all, and neither does a failing one, while `override` in the same
world logs `Scanning` and `Idle`. -/
theorem pull_lifecycle_counterexample :
    (pull exFolder (Except.ok exSnapshot) World.init).2.transitions = [] ∧
    (pull exFolder (Except.error "storage unavailable") World.init).2.transitions = [] ∧
    (override exFolder (Except.ok exSnapshot) World.init).2.transitions
      = [FolderState.FolderScanning, FolderState.FolderIdle] := by
  refine ⟨?_, ?_, ?_⟩ <;> decide

/-- C13, amended (lifecycle state machine). `override` moves the folder to `Scanning`
on operation entry and back to `Idle` on exit, on success and on failure: in the
sequence of its calls `setState(FolderScanning)` is the first and
`setState(FolderIdle)` the last, with no state change in between. `pull` performs no
state transition of its own: none of its calls is a `setState`, and it leaves the
folder state and the transition log as it found them, on success and on failure. -/
theorem lifecycle_override_only (f : Folder) (w : World) :
    (∀ db : Except Error Snapshot, ∃ middle : List Action,
      (override f db w).2.trace
        = w.trace ++ [Action.setState FolderState.FolderScanning] ++ middle
          ++ [Action.setState FolderState.FolderIdle] ∧
      ∀ a ∈ middle, a.isSetState = false) ∧
    (∀ db : Except Error Snapshot,
      (override f db w).2.transitions
        = w.transitions ++ [FolderState.FolderScanning, FolderState.FolderIdle] ∧
      (override f db w).2.state = FolderState.FolderIdle) ∧
    (∀ db : Except Error Snapshot, ∃ added : List Action,
      (pull f db w).2.trace = w.trace ++ added ∧ ∀ a ∈ added, a.isSetState = false) ∧
    (∀ db : Except Error Snapshot,
      (pull f db w).2.transitions = w.transitions ∧ (pull f db w).2.state = w.state) := by
  refine ⟨?_, ?_, ?_, ?_⟩
  · intro db
    cases db with
    | error err =>
      refine ⟨[Action.dbSnapshot], ?_, ?_⟩
      · rw [override_trace_error]
        simp
      · intro a ha
        rw [List.mem_singleton.mp ha]
        rfl
    | ok snap =>
      obtain ⟨bs, h, _⟩ := override_trace_ok f snap w
      refine ⟨[Action.dbSnapshot] ++ bs.map Action.updateLocalsFromScanning ++ [Action.Release],
        ?_, ?_⟩
      · rw [h]
        simp
      · intro a ha
        simp only [List.mem_append, List.mem_singleton, List.mem_map] at ha
        rcases ha with (ha | ⟨b, _, ha⟩) | ha
        · rw [ha]; rfl
        · rw [← ha]; rfl
        · rw [ha]; rfl
  · intro db
    cases db with
    | error err => exact ⟨by simp [override, World.setState, World.dbSnapshot], rfl⟩
    | ok snap => exact ⟨(override_ok_frame f snap w).2.2.1, (override_ok_frame f snap w).2.1⟩
  · intro db
    cases db with
    | error err =>
      refine ⟨[Action.dbSnapshot], rfl, ?_⟩
      intro a ha
      rw [List.mem_singleton.mp ha]
      rfl
    | ok snap =>
      obtain ⟨added, h, hall⟩ := pull_trace_ok f snap w
      refine ⟨[Action.dbSnapshot] ++ added ++ [Action.Release], by rw [h]; simp, ?_⟩
      intro a ha
      simp only [List.mem_append, List.mem_singleton] at ha
      rcases ha with (ha | ha) | ha
      · rw [ha]; rfl
      · have := hall a ha
        cases a <;> simp_all [Action.isPullStep, Action.isSetState]
      · rw [ha]; rfl
  · intro db
    cases db with
    | error err => exact ⟨rfl, rfl⟩
    | ok snap => exact ⟨(pull_ok_frame f snap w).2.1, (pull_ok_frame f snap w).1⟩

/-- C16 (`PullErrors` is always empty). `PullErrors` returns the empty sequence, of
length zero, in every world, and so before and after every sequence of `pull` and
`override` calls, whatever the outcome of their snapshot acquisitions. -/
theorem pullErrors_empty (f : Folder) (calls : List Call) (w : World) :
    PullErrors w = [] ∧ (PullErrors w).length = 0 ∧
    PullErrors (runCalls f calls w) = [] ∧ (PullErrors (runCalls f calls w)).length = 0 ∧
    (∀ e : Error, PullErrors (pull f (Except.error e) w).2 = [] ∧
      PullErrors (override f (Except.error e) w).2 = []) :=
  ⟨rfl, rfl, rfl, rfl, fun _ => ⟨rfl, rfl⟩⟩

/-! ## The batches of `override` -/

/-- What the callback of `override` appends is the result in the words of the
specification: nothing for a skip, else that one record. -/
theorem overrideRecords_eq_spec (f : Folder) (snap : Snapshot) (need : FileInfo) :
    overrideRecords f snap need = (specOverrideResult f snap need).toList := by
  unfold specOverrideResult
  cases hok : (snap.Get need.Name).2
  · have h := overrideRecords_tombstone f snap need (Or.inl hok)
    rw [h]
    have hget : snap.Get need.Name = ((snap.Get need.Name).1, false) := by
      rw [← hok]
    rw [hget]
    rfl
  · have hget : snap.Get need.Name = ((snap.Get need.Name).1, true) := by
      rw [← hok]
    cases hinv : (snap.Get need.Name).1.IsInvalid
    · by_cases hname : (snap.Get need.Name).1.Name = need.Name
      · rw [overrideRecords_replace f snap need hok hinv hname, hget]
        simp [hinv, hname]
      · rw [overrideRecords_tombstone f snap need (Or.inr ⟨hok, hinv, hname⟩), hget]
        simp [hinv, hname]
    · rw [overrideRecords_skip f snap need hok hinv, hget]
      simp [hinv]

/-- Mapping to at most one element and concatenating is `filterMap`. -/
theorem flatMap_toList_eq_filterMap {α β : Type} (g : α → Option β) (xs : List α) :
    xs.flatMap (fun x => (g x).toList) = xs.filterMap g := by
  induction xs with
  | nil => rfl
  | cons x xs ih =>
    rw [List.flatMap_cons, ih]
    cases hx : g x <;> simp [List.filterMap_cons, hx]

/-- The result in the words of the specification is a skip exactly for the locally
invalid records. -/
theorem specOverrideResult_isSome (f : Folder) (snap : Snapshot) (need : FileInfo) :
    (specOverrideResult f snap need).isSome = !locallyInvalid snap need := by
  unfold specOverrideResult locallyInvalid
  cases hok : (snap.Get need.Name).2
  · have hget : snap.Get need.Name = ((snap.Get need.Name).1, false) := by
      rw [← hok]
    rw [hget]
    rfl
  · have hget : snap.Get need.Name = ((snap.Get need.Name).1, true) := by
      rw [← hok]
    rw [hget]
    cases hinv : (snap.Get need.Name).1.IsInvalid
    · by_cases hname : (snap.Get need.Name).1.Name = need.Name <;> simp [hinv, hname]
    · simp [hinv]

/-- Counting the results of `filterMap` is counting the arguments with a result. -/
theorem length_filterMap_eq_length_filter {α β : Type} (g : α → Option β) (xs : List α) :
    (xs.filterMap g).length = (xs.filter (fun x => (g x).isSome)).length := by
  induction xs with
  | nil => rfl
  | cons x xs ih =>
    cases hx : g x <;> simp [List.filterMap_cons, List.filter_cons, hx, ih]

/-- The batches `override` commits are appended to the commit log it found. -/
theorem override_scanning_prefix (f : Folder) (db : Except Error Snapshot) (w : World) :
    ∃ bs : List (List FileInfo), (override f db w).2.scanning = w.scanning ++ bs := by
  cases db with
  | error err => exact ⟨[], by simp [override, World.setState, World.dbSnapshot]⟩
  | ok snap =>
    have hinv := iterate_invariant (overrideVisit f snap)
      (fun acc => ∃ bs : List (List FileInfo), acc.world.scanning = w.scanning ++ bs)
      (fun acc x h => by
        obtain ⟨bs, hbs⟩ := h
        rw [overrideVisit_world]
        unfold overrideFlushIfFull
        split
        · exact ⟨bs ++ [acc.batch], by simp [World.updateLocalsFromScanning, hbs]⟩
        · exact ⟨bs, hbs⟩)
      snap.need { batch := [], batchSizeBytes := 0, world := (w.setState .FolderScanning).dbSnapshot }
      ⟨[], by simp [World.setState, World.dbSnapshot]⟩
    simp only [override, Snapshot.WithNeed]
    generalize iterate (overrideVisit f snap) snap.need
      { batch := [], batchSizeBytes := 0, world := (w.setState .FolderScanning).dbSnapshot } = last
      at hinv ⊢
    obtain ⟨bs, hbs⟩ := hinv
    split
    · exact ⟨bs ++ [last.batch],
        by simp [World.setState, World.dbSnapshot, World.Release, World.updateLocalsFromScanning, hbs]⟩
    · exact ⟨bs, by simpa [World.setState, World.dbSnapshot, World.Release] using hbs⟩

/-- A sum within the range of `int` does not wrap. -/
theorem wrapInt_of_range (x : Int) (hlo : minInt ≤ x) (hhi : x ≤ maxInt) : wrapInt x = x := by
  unfold wrapInt
  unfold minInt at hlo
  unfold maxInt at hhi
  omega

/-- The callback of `override` leaves the running size, after the inline flush, alone
when it appends nothing, and adds the size of the record it appends, as a Go `int`,
when it appends one. -/
theorem overrideVisit_size (f : Folder) (snap : Snapshot) (acc : OverrideAcc) (fi : FileInfo) :
    (overrideVisit f snap acc fi).1.batchSizeBytes
      = match overrideRecords f snap fi with
        | [] => (overrideFlushIfFull f acc).batchSizeBytes
        | r :: _ => wrapInt ((overrideFlushIfFull f acc).batchSizeBytes + f.ProtoSize r) := by
  unfold overrideRecords overrideVisit
  simp only
  split
  · simp [overrideFlushIfFull_start_batch]
  · simp [overrideFlushIfFull_start_batch]

/-- The callback of `override` appends nothing or one record. -/
theorem overrideRecords_cases (f : Folder) (snap : Snapshot) (fi : FileInfo) :
    overrideRecords f snap fi = [] ∨ ∃ r, overrideRecords f snap fi = [r] := by
  rw [overrideRecords_eq_spec]
  cases specOverrideResult f snap fi with
  | none => exact Or.inl rfl
  | some r => exact Or.inr ⟨r, rfl⟩

/-- With thresholds `maxBatchSizeFiles >= 1` and `maxBatchSizeBytes >= 0`, the callback
of `override` commits only non-empty batches and keeps the running size of an empty
pending batch at zero, whatever the sizes of the records are. -/
theorem overrideVisit_nonEmptyInv (f : Folder) (snap : Snapshot) (w : World)
    (acc : OverrideAcc) (fi : FileInfo)
    (hfiles : 1 ≤ f.maxBatchSizeFiles) (hbytes : 0 ≤ f.maxBatchSizeBytes)
    (h : NonEmptyInv w acc) :
    NonEmptyInv w (overrideVisit f snap acc fi).1 := by
  obtain ⟨⟨bs, hbs, hne⟩, hzero⟩ := h
  have hflush : NonEmptyInv w (overrideFlushIfFull f acc) := by
    unfold overrideFlushIfFull
    split
    · rename_i hfull
      have hbatch : acc.batch ≠ [] := by
        intro hnil
        have hz := hzero hnil
        simp only [Bool.or_eq_true, beq_iff_eq, decide_eq_true_eq] at hfull
        rcases hfull with hfull | hfull
        · rw [hnil] at hfull
          simp only [List.length_nil] at hfull
          omega
        · omega
      refine ⟨⟨bs ++ [acc.batch], ?_, ?_⟩, fun _ => rfl⟩
      · simp [World.updateLocalsFromScanning, hbs]
      · intro b hb
        rcases List.mem_append.mp hb with hb | hb
        · exact hne b hb
        · rw [List.mem_singleton.mp hb]
          exact hbatch
    · exact ⟨⟨bs, hbs, hne⟩, hzero⟩
  obtain ⟨hcommitted, hzero'⟩ := hflush
  unfold NonEmptyInv
  rw [overrideVisit_world, overrideVisit_batch, overrideVisit_size]
  rcases overrideRecords_cases f snap fi with hnone | ⟨r, hone⟩
  · rw [hnone]
    simp only [List.append_nil]
    exact ⟨hcommitted, hzero'⟩
  · rw [hone]
    refine ⟨hcommitted, ?_⟩
    intro hnil
    simp at hnil

/-- With thresholds `maxBatchSizeFiles >= 1` and `maxBatchSizeBytes >= 0`, every batch
`override` commits is non-empty, whatever the sizes of the records are. -/
theorem override_batches_nonempty (f : Folder) (db : Except Error Snapshot) (w : World)
    (hfiles : 1 ≤ f.maxBatchSizeFiles) (hbytes : 0 ≤ f.maxBatchSizeBytes) :
    ∃ bs : List (List FileInfo),
      (override f db w).2.scanning = w.scanning ++ bs ∧ ∀ b ∈ bs, b ≠ [] := by
  cases db with
  | error err => exact ⟨[], by simp [override, World.setState, World.dbSnapshot], by simp⟩
  | ok snap =>
    have hinv := iterate_invariant (overrideVisit f snap) (NonEmptyInv w)
      (fun acc x h => overrideVisit_nonEmptyInv f snap w acc x hfiles hbytes h)
      snap.need
      { batch := [], batchSizeBytes := 0, world := (w.setState .FolderScanning).dbSnapshot }
      ⟨⟨[], by simp [World.setState, World.dbSnapshot], by simp⟩, fun _ => rfl⟩
    simp only [override, Snapshot.WithNeed]
    generalize iterate (overrideVisit f snap) snap.need
      { batch := [], batchSizeBytes := 0, world := (w.setState .FolderScanning).dbSnapshot }
      = last at hinv ⊢
    obtain ⟨⟨bs, hbs, hne⟩, _⟩ := hinv
    split
    · rename_i hpos
      refine ⟨bs ++ [last.batch], ?_, ?_⟩
      · simp [World.setState, World.dbSnapshot, World.Release, World.updateLocalsFromScanning,
          hbs]
      · intro b hb
        rcases List.mem_append.mp hb with hb | hb
        · exact hne b hb
        · rw [List.mem_singleton.mp hb]
          intro hnil
          rw [hnil] at hpos
          simp at hpos
    · exact ⟨bs, by simpa [World.setState, World.dbSnapshot, World.Release] using hbs, hne⟩

/-- Non-negative sizes add up to a non-negative cumulative size. -/
theorem protoSizes_nonneg (f : Folder) (hsize : ∀ x : FileInfo, 0 ≤ f.ProtoSize x)
    (b : List FileInfo) : 0 ≤ protoSizes f b := by
  unfold protoSizes
  induction b with
  | nil => simp
  | cons x xs ih =>
    simp only [List.map_cons, List.sum_cons]
    have := hsize x
    omega

/-- With thresholds `maxBatchSizeFiles >= 1` and `maxBatchSizeBytes >= 0`, the inline
flush commits only batches within the thresholds and leaves a pending batch with room
for one more record: fewer than `maxBatchSizeFiles` records and at most
`maxBatchSizeBytes` bytes. -/
theorem overrideFlushIfFull_batchInv (f : Folder) (w : World) (acc : OverrideAcc)
    (hfiles : 1 ≤ f.maxBatchSizeFiles) (hbytes : 0 ≤ f.maxBatchSizeBytes)
    (h : BatchInv f w acc) :
    BatchInv f w (overrideFlushIfFull f acc) ∧
    (overrideFlushIfFull f acc).batch.length < f.maxBatchSizeFiles ∧
    (overrideFlushIfFull f acc).batchSizeBytes ≤ f.maxBatchSizeBytes := by
  obtain ⟨⟨bs, hbs, hwithin⟩, hlen, hsize, hdrop⟩ := h
  unfold overrideFlushIfFull
  split
  · rename_i hfull
    have hne : acc.batch ≠ [] := by
      intro hnil
      rw [hnil] at hsize
      simp only [Bool.or_eq_true, beq_iff_eq, decide_eq_true_eq] at hfull
      rcases hfull with hfull | hfull
      · rw [hnil] at hfull
        simp only [List.length_nil] at hfull
        omega
      · simp only [protoSizes, List.map_nil, List.sum_nil] at hsize
        omega
    refine ⟨⟨⟨bs ++ [acc.batch], ?_, ?_⟩, ?_, ?_, ?_⟩, ?_, ?_⟩
    · simp [World.updateLocalsFromScanning, hbs]
    · intro b hb
      rcases List.mem_append.mp hb with hb | hb
      · exact hwithin b hb
      · rw [List.mem_singleton.mp hb]
        exact ⟨hne, hlen, hdrop⟩
    · simp
    · simp [protoSizes]
    · simpa [protoSizes] using hbytes
    · simpa using hfiles
    · simpa using hbytes
  · rename_i hfull
    simp only [Bool.or_eq_true, beq_iff_eq, decide_eq_true_eq, not_or, not_lt] at hfull
    exact ⟨⟨⟨bs, hbs, hwithin⟩, hlen, hsize, hdrop⟩, by omega, hfull.2⟩

/-- With thresholds `maxBatchSizeFiles >= 1` and `maxBatchSizeBytes >= 0`, and sizes
that are non-negative and small enough for `maxBatchSizeBytes` plus one record to fit
in an `int`, the callback of `override` keeps the batch invariant: the running size
never wraps. -/
theorem overrideVisit_batchInv (f : Folder) (snap : Snapshot) (w : World) (acc : OverrideAcc)
    (fi : FileInfo)
    (hfiles : 1 ≤ f.maxBatchSizeFiles) (hbytes : 0 ≤ f.maxBatchSizeBytes)
    (hsizes : ∀ x : FileInfo, 0 ≤ f.ProtoSize x ∧ f.maxBatchSizeBytes + f.ProtoSize x ≤ maxInt)
    (h : BatchInv f w acc) :
    BatchInv f w (overrideVisit f snap acc fi).1 := by
  obtain ⟨⟨hcommitted, hlen, hsize, hdrop⟩, hroom, hfit⟩ :=
    overrideFlushIfFull_batchInv f w acc hfiles hbytes h
  unfold BatchInv
  rw [overrideVisit_world, overrideVisit_batch, overrideVisit_size]
  rcases overrideRecords_cases f snap fi with hnone | ⟨r, hone⟩
  · rw [hnone]
    simp only [List.append_nil]
    exact ⟨hcommitted, hlen, hsize, hdrop⟩
  · rw [hone]
    have hpos := protoSizes_nonneg f (fun x => (hsizes x).1) (overrideFlushIfFull f acc).batch
    have hr := hsizes r
    have hwrap : wrapInt ((overrideFlushIfFull f acc).batchSizeBytes + f.ProtoSize r)
        = (overrideFlushIfFull f acc).batchSizeBytes + f.ProtoSize r := by
      apply wrapInt_of_range
      · unfold minInt
        omega
      · omega
    refine ⟨hcommitted, ?_, ?_, ?_⟩
    · simp only [List.length_append, List.length_singleton]
      omega
    · simp only [hwrap]
      rw [hsize]
      simp [protoSizes]
    · rw [List.dropLast_concat, ← hsize]
      exact hfit

/-- With thresholds `maxBatchSizeFiles >= 1` and `maxBatchSizeBytes >= 0`, and sizes
that are non-negative and small enough for `maxBatchSizeBytes` plus one record to fit
in an `int`, every batch `override` commits is within the thresholds: it is not
empty, holds at most `maxBatchSizeFiles` records, and holds at most
`maxBatchSizeBytes` bytes before its last record. -/
theorem override_batches_within (f : Folder) (db : Except Error Snapshot) (w : World)
    (hfiles : 1 ≤ f.maxBatchSizeFiles) (hbytes : 0 ≤ f.maxBatchSizeBytes)
    (hsizes : ∀ x : FileInfo, 0 ≤ f.ProtoSize x ∧ f.maxBatchSizeBytes + f.ProtoSize x ≤ maxInt) :
    ∃ bs : List (List FileInfo),
      (override f db w).2.scanning = w.scanning ++ bs ∧ ∀ b ∈ bs, BatchWithin f b := by
  cases db with
  | error err => exact ⟨[], by simp [override, World.setState, World.dbSnapshot], by simp⟩
  | ok snap =>
    have hinv := iterate_invariant (overrideVisit f snap) (BatchInv f w)
      (fun acc x h => overrideVisit_batchInv f snap w acc x hfiles hbytes hsizes h)
      snap.need
      { batch := [], batchSizeBytes := 0, world := (w.setState .FolderScanning).dbSnapshot }
      ⟨⟨[], by simp [World.setState, World.dbSnapshot], by simp⟩, by simp, by simp [protoSizes],
        by simpa [protoSizes] using hbytes⟩
    simp only [override, Snapshot.WithNeed]
    generalize iterate (overrideVisit f snap) snap.need
      { batch := [], batchSizeBytes := 0, world := (w.setState .FolderScanning).dbSnapshot }
      = last at hinv ⊢
    obtain ⟨⟨bs, hbs, hwithin⟩, hlen, _, hdrop⟩ := hinv
    split
    · rename_i hpos
      refine ⟨bs ++ [last.batch], ?_, ?_⟩
      · simp [World.setState, World.dbSnapshot, World.Release, World.updateLocalsFromScanning,
          hbs]
      · intro b hb
        rcases List.mem_append.mp hb with hb | hb
        · exact hwithin b hb
        · rw [List.mem_singleton.mp hb]
          refine ⟨?_, hlen, hdrop⟩
          intro hnil
          rw [hnil] at hpos
          simp at hpos
    · exact ⟨bs, by simpa [World.setState, World.dbSnapshot, World.Release] using hbs, hwithin⟩

/-! ## Claims on the batches of `override` -/

/-- C14 (override no data loss and ordering). For every need list, the batches
`override` passes to the commit path, concatenated in commit order, are the
per-record results of the specification (tombstone or replaced record) for the needed
records in iteration order, the skipped ones left out; so the number of committed
records, also counted batch by batch, is the number of needed records whose local
record is not invalid, and no record is dropped or duplicated. -/
theorem override_no_data_loss (f : Folder) (snap : Snapshot) (w : World) :
    ∃ bs : List (List FileInfo),
      (override f (Except.ok snap) w).2.scanning = w.scanning ++ bs ∧
      bs.flatten = snap.need.filterMap (specOverrideResult f snap) ∧
      bs.flatten.length = (snap.need.filter (fun need => !locallyInvalid snap need)).length ∧
      (bs.map List.length).sum
        = (snap.need.filter (fun need => !locallyInvalid snap need)).length := by
  obtain ⟨bs, hbs⟩ := override_scanning_prefix f (Except.ok snap) w
  have hflat := override_scanning_flatten f snap w
  rw [hbs, List.flatten_append] at hflat
  have hrec : overrideRecords f snap = fun x => (specOverrideResult f snap x).toList :=
    funext (overrideRecords_eq_spec f snap)
  have hbsflat : bs.flatten = snap.need.filterMap (specOverrideResult f snap) := by
    rw [List.append_cancel_left hflat, hrec, flatMap_toList_eq_filterMap]
  have hlen : bs.flatten.length
      = (snap.need.filter (fun need => !locallyInvalid snap need)).length := by
    rw [hbsflat, length_filterMap_eq_length_filter]
    simp only [specOverrideResult_isSome]
  refine ⟨bs, hbs, hbsflat, hlen, ?_⟩
  rw [← List.length_flatten, hlen]

/-- C15 as stated fails: with thresholds of a thousand records and fifteen bytes and
the non-negative sizes one, the largest `int` and one, the running size wraps to the
smallest `int` at the second record, the inline check never fires, and `override`
commits all three records in one batch, whose first two records exceed the byte
threshold. -/
theorem override_batch_threshold_counterexample :
    1 ≤ exWideFolder.maxBatchSizeFiles ∧ 0 ≤ exWideFolder.maxBatchSizeBytes ∧
    (∀ x : FileInfo, 0 ≤ exWideFolder.ProtoSize x) ∧
    (override exWideFolder (Except.ok exWideSnapshot) World.init).2.scanning.map
        (List.map exWideFolder.ProtoSize) = [[1, 9223372036854775807, 1]] ∧
    ¬ (∀ b ∈ (override exWideFolder (Except.ok exWideSnapshot) World.init).2.scanning,
        (b.dropLast.map exWideFolder.ProtoSize).sum ≤ exWideFolder.maxBatchSizeBytes) := by
  refine ⟨by decide, by decide, fun x => Int.ofNat_nonneg _, by decide, by decide⟩

/-- C15, amended (override batch threshold invariant). With `maxBatchSizeFiles >= 1`,
`maxBatchSizeBytes >= 0`, and record sizes that are non-negative and small enough for
`maxBatchSizeBytes` plus one record to fit in an `int` (so that the running size
cannot overflow), every batch `override` passes to the commit path holds at most
`maxBatchSizeFiles` records, and without its last record its cumulative `ProtoSize`
is at most `maxBatchSizeBytes`: the size exceeds the threshold by at most the last
record. -/
theorem override_batch_threshold (f : Folder) (db : Except Error Snapshot) (w : World)
    (hfiles : 1 ≤ f.maxBatchSizeFiles) (hbytes : 0 ≤ f.maxBatchSizeBytes)
    (hsizes : ∀ x : FileInfo, 0 ≤ f.ProtoSize x ∧ f.maxBatchSizeBytes + f.ProtoSize x ≤ maxInt) :
    ∃ bs : List (List FileInfo),
      (override f db w).2.scanning = w.scanning ++ bs ∧
      ∀ b ∈ bs, b.length ≤ f.maxBatchSizeFiles ∧
        (b.dropLast.map f.ProtoSize).sum ≤ f.maxBatchSizeBytes := by
  obtain ⟨bs, hbs, hwithin⟩ := override_batches_within f db w hfiles hbytes hsizes
  exact ⟨bs, hbs, fun b hb => ⟨(hwithin b hb).2.1, (hwithin b hb).2.2⟩⟩

/-- C15, scenario: thresholds of two records and fifteen bytes, sizes below a thousand,
five records of ten bytes to commit; the hypotheses hold, the batches have two, two
and one records, and each is within the thresholds before its last record. -/
theorem override_batch_threshold_witness :
    1 ≤ exSmallFolder.maxBatchSizeFiles ∧ 0 ≤ exSmallFolder.maxBatchSizeBytes ∧
    (∀ x : FileInfo, 0 ≤ exSmallFolder.ProtoSize x ∧
      exSmallFolder.maxBatchSizeBytes + exSmallFolder.ProtoSize x ≤ maxInt) ∧
    (override exSmallFolder (Except.ok exSnapshot) World.init).2.scanning.map List.length
      = [2, 2, 1] ∧
    ∀ b ∈ (override exSmallFolder (Except.ok exSnapshot) World.init).2.scanning,
      b.length ≤ 2 ∧ (b.dropLast.map exSmallFolder.ProtoSize).sum ≤ 15 := by
  have hsizes : ∀ x : FileInfo, 0 ≤ exSmallFolder.ProtoSize x ∧
      exSmallFolder.maxBatchSizeBytes + exSmallFolder.ProtoSize x ≤ maxInt := by
    intro x
    show 0 ≤ Int.ofNat (x.Size.toNat % 1000) ∧ 15 + Int.ofNat (x.Size.toNat % 1000) ≤ maxInt
    have hlt : x.Size.toNat % 1000 < 1000 := Nat.mod_lt _ (by decide)
    unfold maxInt
    constructor
    · exact Int.ofNat_nonneg _
    · simp only [Int.ofNat_eq_coe]
      omega
  obtain ⟨bs, hbs, h⟩ := override_batch_threshold exSmallFolder (Except.ok exSnapshot)
    World.init (by decide) (by decide) hsizes
  refine ⟨by decide, by decide, hsizes, by decide, ?_⟩
  intro b hb
  rw [hbs] at hb
  exact h b (by simpa [World.init] using hb)

/-- C18 (override never commits an empty batch). With `maxBatchSizeFiles >= 1` and
`maxBatchSizeBytes >= 0`, every batch `override` passes to the commit path is
non-empty, whatever the need list: with an empty need list, and with only skipped
records, nothing is committed at all. This holds for every size estimate,
non-negative or not, and whether or not the running size wraps. -/
theorem override_no_empty_batch (f : Folder) (db : Except Error Snapshot) (w : World)
    (hfiles : 1 ≤ f.maxBatchSizeFiles) (hbytes : 0 ≤ f.maxBatchSizeBytes) :
    (∃ bs : List (List FileInfo),
      (override f db w).2.scanning = w.scanning ++ bs ∧ ∀ b ∈ bs, b ≠ []) ∧
    (∀ snap : Snapshot,
      (∀ need ∈ snap.need, locallyInvalid snap need = true) →
      (override f (Except.ok snap) w).2.scanning = w.scanning) := by
  constructor
  · exact override_batches_nonempty f db w hfiles hbytes
  · intro snap hskip
    obtain ⟨bs, hbs, hne⟩ := override_batches_nonempty f (Except.ok snap) w hfiles hbytes
    have hflat := override_scanning_flatten f snap w
    rw [hbs, List.flatten_append] at hflat
    have hnone : snap.need.flatMap (overrideRecords f snap) = [] := by
      rw [List.flatMap, List.flatten_eq_nil_iff]
      intro l hl
      obtain ⟨need, hneed, rfl⟩ := List.mem_map.mp hl
      have h := hskip need hneed
      unfold locallyInvalid at h
      simp only [Bool.and_eq_true] at h
      exact overrideRecords_skip f snap need h.1 h.2
    rw [hnone] at hflat
    have hbsflat : bs.flatten = [] := List.append_cancel_left hflat
    have hbsnil : bs = [] := by
      cases bs with
      | nil => rfl
      | cons b rest =>
        exfalso
        have hb := hne b (List.mem_cons_self _ _)
        rw [List.flatten_cons] at hbsflat
        exact hb (List.append_eq_nil.mp hbsflat).1
    rw [hbs, hbsnil, List.append_nil]

/-- C18, scenario: a byte threshold of five with records of ten, so that every record
fills the batch and the skipped `"bad.txt"` directly follows an inline flush; the
hypotheses hold, five batches of one record are committed, none is empty, and a need
list of skipped records alone, like an empty one, commits nothing. -/
theorem override_no_empty_batch_witness :
    1 ≤ exTinyFolder.maxBatchSizeFiles ∧ 0 ≤ exTinyFolder.maxBatchSizeBytes ∧
    (override exTinyFolder (Except.ok exSnapshot) World.init).2.scanning.map List.length
      = [1, 1, 1, 1, 1] ∧
    (∀ b ∈ (override exTinyFolder (Except.ok exSnapshot) World.init).2.scanning, b ≠ []) ∧
    (override exTinyFolder (Except.ok { exSnapshot with need := [exNeedBad, exNeedBad] })
      World.init).2.scanning = [] ∧
    (override exTinyFolder (Except.ok { exSnapshot with need := [] })
      World.init).2.scanning = [] := by
  obtain ⟨⟨bs, hbs, h⟩, hskip⟩ := override_no_empty_batch exTinyFolder
    (Except.ok exSnapshot) World.init (by decide) (by decide)
  refine ⟨by decide, by decide, by decide, ?_, ?_, ?_⟩
  · intro b hb
    rw [hbs] at hb
    exact h b (by simpa [World.init] using hb)
  · exact hskip { exSnapshot with need := [exNeedBad, exNeedBad] } (by decide)
  · exact hskip { exSnapshot with need := [] } (by simp)

/-! ## The batches of `pull` -/

/-- Flushing appends to the commit log of `pull`. -/
theorem flush_pulling (b : fileInfoBatch) (w : World) :
    ∃ bs : List (List FileInfo), (b.flush pullFlushFn w).2.pulling = w.pulling ++ bs := by
  unfold fileInfoBatch.flush pullFlushFn
  simp only
  split
  · exact ⟨[], by simp⟩
  · exact ⟨[b.infos], rfl⟩

/-- `flushIfFull` appends to the commit log of `pull`. -/
theorem flushIfFull_pulling (f : Folder) (b : fileInfoBatch) (w : World) :
    ∃ bs : List (List FileInfo),
      (b.flushIfFull f pullFlushFn w).2.pulling = w.pulling ++ bs := by
  unfold fileInfoBatch.flushIfFull
  split
  · exact flush_pulling b w
  · exact ⟨[], by simp⟩

/-- The batches `pull` commits are appended to the commit log it found. -/
theorem pull_pulling_prefix (f : Folder) (snap : Snapshot) (w : World) :
    ∃ bs : List (List FileInfo), (pull f (Except.ok snap) w).2.pulling = w.pulling ++ bs := by
  have hinv := iterate_invariant (pullVisit f snap)
    (fun s => ∃ bs : List (List FileInfo), s.2.pulling = w.pulling ++ bs)
    (fun s x h => by
      obtain ⟨bs, hbs⟩ := h
      obtain ⟨extra, hextra⟩ := flushIfFull_pulling f s.1 s.2
      rw [(pullVisit_batch f snap s x).2, hextra, hbs]
      exact ⟨bs ++ extra, by simp⟩)
    snap.need (newFileInfoBatch, w.dbSnapshot) ⟨[], by simp [World.dbSnapshot]⟩
  simp only [pull, Snapshot.WithNeed]
  generalize iterate (pullVisit f snap) snap.need (newFileInfoBatch, w.dbSnapshot) = last at hinv ⊢
  obtain ⟨bs, hbs⟩ := hinv
  obtain ⟨extra, hextra⟩ := flush_pulling last.1 last.2
  simp only [World.Release]
  rw [hextra, hbs]
  exact ⟨bs ++ extra, by simp⟩

/-- The callback of `pull` appends nothing or one record. -/
theorem pullAppended_length (f : Folder) (snap : Snapshot) (intf : FileInfo) :
    (pullAppended f snap intf).length ≤ 1 := by
  cases hign : f.ShouldIgnore intf.Name
  · cases hok : (snap.Get intf.Name).2
    · rw [(pull_case_absent f snap intf hign hok).1]
      split <;> simp
    · rw [(pull_case_present f snap intf hign hok).1]
      split <;> simp
  · rw [(pull_case_ignored f snap intf hign).1]
    simp

/-! ## Claims on the flush discipline and on independence -/

/-- C17 (pull flush discipline). With the batch accumulator of section 4.3, every
callback run of `pull` is one `flushIfFull` on the state it finds, followed by
nothing, by one `append`, or by one `Log`; so it appends at most one record, after
the `flushIfFull`. `pull` is the snapshot acquisition and the iteration followed by
one `flush` and the release, and that `flush` leaves the accumulator empty: nothing
stays buffered. Hence the
batches handed to the commit callback, concatenated in order, are the records the
callback runs appended, in order. -/
theorem pull_flush_discipline (f : Folder) (snap : Snapshot) (w : World) :
    (∀ (s : fileInfoBatch × World) (x : FileInfo),
      ((pullVisit f snap s x).1 = s.1.flushIfFull f pullFlushFn s.2 ∨
        (∃ r : FileInfo, (pullVisit f snap s x).1
          = ((s.1.flushIfFull f pullFlushFn s.2).1.append f r,
             (s.1.flushIfFull f pullFlushFn s.2).2)) ∨
        (pullVisit f snap s x).1
          = ((s.1.flushIfFull f pullFlushFn s.2).1,
             (s.1.flushIfFull f pullFlushFn s.2).2.Log EventType.Failure
               deletedNeededMessage)) ∧
      (pullVisit f snap s x).1.1.infos
        = (s.1.flushIfFull f pullFlushFn s.2).1.infos ++ pullAppended f snap x ∧
      (pullVisit f snap s x).1.2.pulling = (s.1.flushIfFull f pullFlushFn s.2).2.pulling ∧
      (pullAppended f snap x).length ≤ 1) ∧
    pull f (Except.ok snap) w
      = ((true, none),
         ((iterate (pullVisit f snap) snap.need (newFileInfoBatch, w.dbSnapshot)).1.flush pullFlushFn
           (iterate (pullVisit f snap) snap.need (newFileInfoBatch, w.dbSnapshot)).2).2.Release) ∧
    ((iterate (pullVisit f snap) snap.need (newFileInfoBatch, w.dbSnapshot)).1.flush pullFlushFn
      (iterate (pullVisit f snap) snap.need (newFileInfoBatch, w.dbSnapshot)).2).1.infos = [] ∧
    (∃ bs : List (List FileInfo),
      (pull f (Except.ok snap) w).2.pulling = w.pulling ++ bs ∧
      bs.flatten = snap.need.flatMap (pullAppended f snap)) := by
  refine ⟨?_, rfl, rfl, ?_⟩
  · intro s x
    exact ⟨pullVisit_shape f snap s x, (pullVisit_batch f snap s x).1,
      (pullVisit_batch f snap s x).2, pullAppended_length f snap x⟩
  · obtain ⟨bs, hbs⟩ := pull_pulling_prefix f snap w
    have hflat := (pull_run f snap w).1
    rw [hbs, List.flatten_append] at hflat
    exact ⟨bs, hbs, List.append_cancel_left hflat⟩

/-- C19 (per-record independence). For a fixed folder host and snapshot lookup, the
records `override` commits over a need list `xs ++ ys` are those it commits over `xs`
followed by those it commits over `ys`, and likewise for `pull`; running over
`xs ++ ys` commits the same records as running over `xs` and then over `ys`. What a
callback run appends does not depend on the batch and world it finds, and depends on
the snapshot only through the lookup for the name of its record. -/
theorem per_record_independence (f : Folder) (snap : Snapshot) (xs ys : List FileInfo)
    (w : World) :
    ((override f (Except.ok { snap with need := xs ++ ys }) World.init).2.scanning.flatten
      = (override f (Except.ok { snap with need := xs }) World.init).2.scanning.flatten
        ++ (override f (Except.ok { snap with need := ys }) World.init).2.scanning.flatten) ∧
    ((pull f (Except.ok { snap with need := xs ++ ys }) World.init).2.pulling.flatten
      = (pull f (Except.ok { snap with need := xs }) World.init).2.pulling.flatten
        ++ (pull f (Except.ok { snap with need := ys }) World.init).2.pulling.flatten) ∧
    ((override f (Except.ok { snap with need := xs ++ ys }) w).2.scanning.flatten
      = (override f (Except.ok { snap with need := ys })
          (override f (Except.ok { snap with need := xs }) w).2).2.scanning.flatten) ∧
    ((pull f (Except.ok { snap with need := xs ++ ys }) w).2.pulling.flatten
      = (pull f (Except.ok { snap with need := ys })
          (pull f (Except.ok { snap with need := xs }) w).2).2.pulling.flatten) ∧
    (∀ (acc : OverrideAcc) (x : FileInfo),
      (overrideVisit f snap acc x).1.batch
        = (overrideFlushIfFull f acc).batch ++ overrideRecords f snap x ∧
      overrideRecords f snap x
        = overrideRecords f { Get := fun _ => snap.Get x.Name, need := [] } x) ∧
    (∀ (s : fileInfoBatch × World) (x : FileInfo),
      (pullVisit f snap s x).1.1.infos
        = (s.1.flushIfFull f pullFlushFn s.2).1.infos ++ pullAppended f snap x ∧
      pullAppended f snap x
        = pullAppended f { Get := fun _ => snap.Get x.Name, need := [] } x) := by
  refine ⟨?_, ?_, ?_, ?_, ?_, ?_⟩
  · simp only [override_scanning_flatten, overrideRecords_congr, List.flatMap_append,
      World.init, List.flatten_nil, List.nil_append]
  · simp only [(pull_run f _ _).1, (pullAppended_congr f snap _).1, List.flatMap_append,
      World.init, List.flatten_nil, List.nil_append]
  · simp only [override_scanning_flatten, overrideRecords_congr, List.flatMap_append,
      List.append_assoc]
  · simp only [(pull_run f _ _).1, (pullAppended_congr f snap _).1, List.flatMap_append,
      List.append_assoc]
  · intro acc x
    exact ⟨overrideVisit_batch f snap acc x, rfl⟩
  · intro s x
    exact ⟨(pullVisit_batch f snap s x).1, rfl⟩

end SendOnly
